import Mathlib

/-!
# Verification of the mutex-protected FIFO queue of `src/queue/queue.h`

A shallow embedding of `queue_init`, `queue_empty`, `queue_push`, `queue_pop`
and `queue_exit` (file `src/queue/queue.h`), and of clients that call them in
sequence the way `src/queue/test.c` does.

The C heap is explicit state: task nodes and queue structures live at
addresses, a pointer is an optional address (`none` is `NULL`), and every
access through a pointer that designates no live object is undefined behaviour,
reported as `Res.fault`.  The mutex is a held / not-held flag; locking a held
mutex never returns (`Res.blocked`).  Standard output and the accesses to the
queue's fields (with the state of the lock at that moment) are recorded in the
state.  `int size` holds the values from -2147483648 to 2147483647: `++` and
`--` on it wrap around in two's complement (`wrap_int`), which is what the
compiled program does on signed overflow (undefined behaviour in ISO C).
`malloc` hands out the next unused address, or `NULL` when the caller of the
model says that no storage is available.
-/

namespace CQueue

/-- An address of the C heap. -/
abbrev Addr := Nat

/-- A C pointer: `none` is `NULL`. -/
abbrev Ptr := Option Addr

/-- Source `struct Task`: the payload pointer and the link. -/
structure Task where
  object : Ptr
  next : Ptr
deriving DecidableEq, Repr

/-- Source `struct Queue`; `size` is the C `int` (every write of it made by the
code goes through `wrap_int`), `lock` is `true` while the mutex is held. -/
structure Queue where
  size : Int
  head : Ptr
  tail : Ptr
  lock : Bool
deriving DecidableEq, Repr

/-- The three data fields of `struct Queue`. -/
inductive Field where
  | size
  | head
  | tail
deriving DecidableEq, Repr

/-- What the instrumentation records: mutex calls and accesses to the fields
of the queue at address `q`; `held` is the state of that queue's lock when the
access is made. -/
inductive Event where
  | lock (q : Addr)
  | unlock (q : Addr)
  | read (q : Addr) (f : Field) (held : Bool)
  | write (q : Addr) (f : Field) (held : Bool)
deriving DecidableEq, Repr

/-- The program state: live queues, live task nodes, the allocator's next
unused address, standard output (one entry per line), and the access log. -/
structure State where
  queues : Addr → Option Queue
  tasks : Addr → Option Task
  brk : Addr
  out : List String
  log : List Event

/-- The state of a program that has allocated nothing yet. -/
def State.empty : State :=
  { queues := fun _ => none, tasks := fun _ => none, brk := 0, out := [], log := [] }

/-- Result of running a piece of C code. -/
inductive Res (α : Type) where
  | ok (val : α) (σ : State)
  | fault
  | blocked

/-- The value returned, when the code returns. -/
def Res.val? {α : Type} : Res α → Option α
  | .ok v _ => some v
  | .fault => none
  | .blocked => none

/-- The final state, when the code returns. -/
def Res.state? {α : Type} : Res α → Option State
  | .ok _ σ => some σ
  | .fault => none
  | .blocked => none

/-- C code as a state transformer. -/
def M (α : Type) : Type := State → Res α

/-- Sequencing: a fault or a blocked call ends the run. -/
def M.bind {α β : Type} (m : M α) (f : α → M β) : M β := fun σ =>
  match m σ with
  | .ok v σ' => f v σ'
  | .fault => .fault
  | .blocked => .blocked

/-- Returning a value leaves the state alone. -/
def M.pure {α : Type} (v : α) : M α := fun σ => .ok v σ

instance : Monad M where
  pure := M.pure
  bind := M.bind

/-! ## Primitive actions -/

/-- The contents of freshly allocated storage are indeterminate; the model
fills a new `struct Task` with this junk. -/
def Task.junk : Task := { object := some 0, next := some 0 }

/-- Junk contents of a freshly allocated `struct Queue`. -/
def Queue.junk : Queue := { size := -1, head := some 0, tail := some 0, lock := true }

/-- Source `malloc(sizeof(struct Task))`: `avail` tells whether storage can be
obtained; the new object sits at the next unused address. -/
def malloc_task (avail : Bool) : M Ptr := fun σ =>
  if avail then
    .ok (some σ.brk)
      { σ with tasks := Function.update σ.tasks σ.brk (some Task.junk), brk := σ.brk + 1 }
  else .ok none σ

/-- Source `malloc(sizeof(struct Queue))`. -/
def malloc_queue (avail : Bool) : M Ptr := fun σ =>
  if avail then
    .ok (some σ.brk)
      { σ with queues := Function.update σ.queues σ.brk (some Queue.junk), brk := σ.brk + 1 }
  else .ok none σ

/-- Source `free(task)`: a no-op on `NULL`, undefined on a pointer to no live
task. -/
def free_task (p : Ptr) : M Unit := fun σ =>
  match p with
  | none => .ok () σ
  | some a =>
    match σ.tasks a with
    | none => .fault
    | some _ => .ok () { σ with tasks := Function.update σ.tasks a none }

/-- Source `free(queue)`. -/
def free_queue (p : Ptr) : M Unit := fun σ =>
  match p with
  | none => .ok () σ
  | some a =>
    match σ.queues a with
    | none => .fault
    | some _ => .ok () { σ with queues := Function.update σ.queues a none }

/-- Access to the queue designated by `p`: undefined when `p` is `NULL` or
designates no live queue. -/
def with_queue {α : Type} (p : Ptr) (k : Addr → Queue → State → Res α) : M α := fun σ =>
  match p with
  | none => .fault
  | some q =>
    match σ.queues q with
    | none => .fault
    | some Q => k q Q σ

/-- Access to the task designated by `p`. -/
def with_task {α : Type} (p : Ptr) (k : Addr → Task → State → Res α) : M α := fun σ =>
  match p with
  | none => .fault
  | some a =>
    match σ.tasks a with
    | none => .fault
    | some t => k a t σ

/-- Replace the queue stored at `q` and record `e`. -/
def State.put_queue (σ : State) (q : Addr) (Q : Queue) (e : Event) : State :=
  { σ with queues := Function.update σ.queues q (some Q), log := σ.log ++ [e] }

/-- Replace the task stored at `a`. -/
def State.put_task (σ : State) (a : Addr) (t : Task) : State :=
  { σ with tasks := Function.update σ.tasks a (some t) }

/-- Source `pthread_mutex_init(&queue->lock, NULL)`. -/
def mutex_init (p : Ptr) : M Unit :=
  with_queue p fun q Q σ => .ok () { σ with queues := Function.update σ.queues q (some { Q with lock := false }) }

/-- Source `pthread_mutex_lock(&queue->lock)`: never returns on a held mutex. -/
def mutex_lock (p : Ptr) : M Unit :=
  with_queue p fun q Q σ =>
    if Q.lock then .blocked
    else .ok () (σ.put_queue q { Q with lock := true } (.lock q))

/-- Source `pthread_mutex_unlock(&queue->lock)`: undefined on a mutex that is
not held. -/
def mutex_unlock (p : Ptr) : M Unit :=
  with_queue p fun q Q σ =>
    if Q.lock then .ok () (σ.put_queue q { Q with lock := false } (.unlock q))
    else .fault

/-- Read `queue->size`. -/
def get_size (p : Ptr) : M Int :=
  with_queue p fun q Q σ => .ok Q.size { σ with log := σ.log ++ [.read q .size Q.lock] }

/-- Read `queue->head`. -/
def get_head (p : Ptr) : M Ptr :=
  with_queue p fun q Q σ => .ok Q.head { σ with log := σ.log ++ [.read q .head Q.lock] }

/-- Read `queue->tail`. -/
def get_tail (p : Ptr) : M Ptr :=
  with_queue p fun q Q σ => .ok Q.tail { σ with log := σ.log ++ [.read q .tail Q.lock] }

/-- Write `queue->size`. -/
def set_size (p : Ptr) (v : Int) : M Unit :=
  with_queue p fun q Q σ => .ok () (σ.put_queue q { Q with size := v } (.write q .size Q.lock))

/-- Write `queue->head`. -/
def set_head (p : Ptr) (v : Ptr) : M Unit :=
  with_queue p fun q Q σ => .ok () (σ.put_queue q { Q with head := v } (.write q .head Q.lock))

/-- Write `queue->tail`. -/
def set_tail (p : Ptr) (v : Ptr) : M Unit :=
  with_queue p fun q Q σ => .ok () (σ.put_queue q { Q with tail := v } (.write q .tail Q.lock))

/-- Read `task->object`. -/
def get_object (p : Ptr) : M Ptr :=
  with_task p fun _ t σ => .ok t.object σ

/-- Read `task->next`. -/
def get_next (p : Ptr) : M Ptr :=
  with_task p fun _ t σ => .ok t.next σ

/-- Write `task->object`. -/
def set_object (p : Ptr) (v : Ptr) : M Unit :=
  with_task p fun a t σ => .ok () (σ.put_task a { t with object := v })

/-- Write `task->next`. -/
def set_next (p : Ptr) (v : Ptr) : M Unit :=
  with_task p fun a t σ => .ok () (σ.put_task a { t with next := v })

/-- Source `puts(s)`: one line on standard output. -/
def puts (s : String) : M Unit := fun σ => .ok () { σ with out := σ.out ++ [s] }

/-- The value an `int` holds after an arithmetic step whose exact result is `n`:
32-bit two's complement, so that a result above `INT_MAX` (2147483647) or below
`INT_MIN` (-2147483648) wraps around. -/
def wrap_int (n : Int) : Int := (n + 2147483648) % 4294967296 - 2147483648

/-! ## The functions of `queue.h` -/

/-- Source `queue_init` (queue.h:32-41). -/
def queue_init (avail : Bool) : M Ptr := do
  let queue ← malloc_queue avail
  if queue = none then pure none
  else do
    mutex_init queue
    set_size queue 0
    set_tail queue none
    set_head queue none
    pure queue

/-- Source `queue_empty` (queue.h:63-70). -/
def queue_empty (queue : Ptr) : M Int := do
  if queue = none then pure (-1)
  else do
    if (← get_size queue) = 0 then pure 1
    else pure 0

/-- Source `queue_push` (queue.h:88-112); `avail` is whether `malloc` finds
storage for the task. -/
def queue_push (avail : Bool) (data : Ptr) (queue : Ptr) : M Int := do
  let task ← malloc_task avail
  if queue = none then pure (-1)
  else do
    set_next task none
    mutex_lock queue
    set_object task data
    if (← get_size queue) = 0 then
      set_tail queue task
      set_head queue task
    else
      set_next (← get_tail queue) task
      set_tail queue task
    set_size queue (wrap_int ((← get_size queue) + 1))
    mutex_unlock queue
    pure 0

/-- Source `queue_pop` (queue.h:132-152). -/
def queue_pop (queue : Ptr) : M Ptr := do
  mutex_lock queue
  if (← queue_empty queue) ≠ 0 then
    puts "Queue is empty"
    mutex_unlock queue
    pure none
  else do
    let task ← get_head queue
    if (← get_head queue) = (← get_tail queue) then
      set_tail queue none
      set_head queue none
    else
      set_head queue (← get_next (← get_head queue))
    set_size queue (wrap_int ((← get_size queue) - 1))
    mutex_unlock queue
    pure task

/-- Source `queue_exit` (queue.h:167-177). -/
def queue_exit (queue : Ptr) : M Unit := do
  if (← queue_empty queue) = 0 then
    let task ← queue_pop queue
    free_task task
  free_queue queue

/-! ## Well-formed queues -/

/-- The nodes reached from `p` by following `next` are exactly `xs` (address
and payload of each node, in order) and the last link is `NULL`. -/
def Chain (tasks : Addr → Option Task) : Ptr → List (Addr × Ptr) → Prop
  | p, [] => p = none
  | p, x :: xs => p = some x.1 ∧ ∃ n, tasks x.1 = some ⟨x.2, n⟩ ∧ Chain tasks n xs

/-- The queue at address `q` is well formed and holds the nodes `xs`, front
first: it is live, its lock is not held, `size` counts the nodes (a count that
an `int` can hold, at most `INT_MAX`), `head` starts the chain, `tail` is the
last node, and the nodes are distinct objects obtained from the allocator. -/
structure Rep (σ : State) (q : Addr) (xs : List (Addr × Ptr)) : Prop where
  live : ∃ Q, σ.queues q = some Q ∧ Q.lock = false ∧ Q.size = xs.length ∧
    Chain σ.tasks Q.head xs ∧ Q.tail = xs.getLast?.map Prod.fst
  nodup : (xs.map Prod.fst).Nodup
  below : ∀ x ∈ xs, x.1 < σ.brk
  fits : xs.length ≤ 2147483647

/-- The queue at address `q` after any number of pushes: as `Rep`, but `size`
is the `int` that counting the nodes `xs` from 0 by `++` gives, which is their
number only while that number fits an `int`. -/
structure RepW (σ : State) (q : Addr) (xs : List (Addr × Ptr)) : Prop where
  live : ∃ Q, σ.queues q = some Q ∧ Q.lock = false ∧ Q.size = wrap_int xs.length ∧
    Chain σ.tasks Q.head xs ∧ Q.tail = xs.getLast?.map Prod.fst
  nodup : (xs.map Prod.fst).Nodup
  below : ∀ x ∈ xs, x.1 < σ.brk

/-! ## Clients: sequences of calls -/

/-- A call made by a client of the queue; the allocation made by a push
succeeds. -/
inductive Op where
  | push (data : Ptr)
  | pop
deriving DecidableEq, Repr

/-- What the client sees of a call: the value returned by `queue_push`, or for
`queue_pop` the empty result (`none`) or the `object` field of the task it
returned. -/
inductive Obs where
  | pushed (ret : Int)
  | popped (object : Option Ptr)
deriving DecidableEq, Repr

/-- One call on `queue`; after a pop the client reads `task->object` through the
returned pointer, as `worker` of test.c does. -/
def call (queue : Ptr) : Op → M Obs
  | .push data => do
    let ret ← queue_push true data queue
    pure (.pushed ret)
  | .pop => do
    let task ← queue_pop queue
    if task = none then pure (.popped none)
    else do
      let object ← get_object task
      pure (.popped (some object))

/-- A sequence of calls on `queue`, in order, with what each returned. -/
def run (queue : Ptr) : List Op → M (List Obs)
  | [] => pure []
  | op :: ops => do
    let o ← call queue op
    let os ← run queue ops
    pure (o :: os)

/-- The abstract list queue of the specification: push appends the payload at
the back, pop removes and returns the front, pop on the empty list returns the
empty result. -/
def spec_call : Op → List Ptr → Obs × List Ptr
  | .push data, l => (.pushed 0, l ++ [data])
  | .pop, [] => (.popped none, [])
  | .pop, d :: l => (.popped (some d), l)

/-- A sequence of calls on the abstract list queue. -/
def spec_run : List Op → List Ptr → List Obs × List Ptr
  | [], l => ([], l)
  | op :: ops, l =>
    let r := spec_call op l
    let rs := spec_run ops r.2
    (r.1 :: rs.1, rs.2)

/-- The payloads handed to the pushes of a sequence of calls, in order. -/
def pushed_payloads : List Op → List Ptr
  | [] => []
  | .push data :: ops => data :: pushed_payloads ops
  | .pop :: ops => pushed_payloads ops

/-- The payloads carried by the tasks that the pops returned, in order. -/
def popped_payloads : List Obs → List Ptr
  | [] => []
  | .popped (some d) :: os => d :: popped_payloads os
  | _ :: os => popped_payloads os

/-- Number of pushes that completed (returned 0). -/
def pushes_completed : List Obs → Nat
  | [] => 0
  | .pushed 0 :: os => pushes_completed os + 1
  | _ :: os => pushes_completed os

/-- Number of pops that returned a task. -/
def pops_returned : List Obs → Nat
  | [] => 0
  | .popped (some _) :: os => pops_returned os + 1
  | _ :: os => pops_returned os

/-- Whether a sequence of calls, started on a queue holding `n` nodes, keeps the
number of queued nodes within `INT_MAX`, so that `size` never overflows. -/
def within_int : List Op → Nat → Bool
  | [], _ => true
  | .push _ :: ops, n => decide (n < 2147483647) && within_int ops (n + 1)
  | .pop :: ops, n => within_int ops (n - 1)

/-- The `size` field of the queue at `q`, when that queue is live. -/
def size_at (σ : State) (q : Addr) : Option Int := (σ.queues q).map Queue.size

/-- One pop followed by a read of `queue->size`, as an iteration of `worker`
(test.c:19-22) does. -/
def pop_and_size (queue : Ptr) : M (Obs × Int) := do
  let o ← call queue .pop
  let n ← get_size queue
  pure (o, n)

/-- The example scenario of the specification: create a queue, push `a`, `b`,
`c` in that order, read `size`, then pop four times reading `size` after each
pop. -/
def scenario (a b c : Ptr) : M (Int × List (Obs × Int)) := do
  let queue ← queue_init true
  let _ ← queue_push true a queue
  let _ ← queue_push true b queue
  let _ ← queue_push true c queue
  let n ← get_size queue
  let r₁ ← pop_and_size queue
  let r₂ ← pop_and_size queue
  let r₃ ← pop_and_size queue
  let r₄ ← pop_and_size queue
  pure (n, [r₁, r₂, r₃, r₄])

/-- A concrete state: the queue at address 0 holds two tasks, at addresses 1
and 2, carrying the payloads 10 and 20. -/
def two_tasks : State :=
  { queues := fun a => if a = 0 then some ⟨2, some 1, some 2, false⟩ else none
    tasks := fun a =>
      if a = 1 then some ⟨some 10, some 2⟩
      else if a = 2 then some ⟨some 20, none⟩
      else none
    brk := 3
    out := []
    log := [] }

/-- Source `worker` (test.c:16-27): pop until the empty result, printing the
payload and `queue->size` after each pop that returned a task.  `text` gives the
C string that a payload pointer designates; `sleep(1)` changes nothing in the
state.  The loop is bounded by `fuel` iterations: the result is `none` when the
fuel runs out, and otherwise the successive values assigned to `td->task`, the
last of which is `NULL`. -/
def worker (text : Ptr → String) (queue : Ptr) : Nat → M (Option (List Ptr))
  | 0 => pure none
  | fuel + 1 => do
    let task ← queue_pop queue
    if task = none then pure (some [none])
    else do
      let object ← get_object task
      let size ← get_size queue
      puts ("Popped '" ++ text object ++ "' off of the queue.")
      puts ("Size: " ++ toString size)
      let rest ← worker text queue fuel
      pure (rest.map fun l => task :: l)

/-- An access to `size`, `head` or `tail` made while the lock is not held. -/
def Event.unlocked : Event → Bool
  | .read _ _ held => !held
  | .write _ _ held => !held
  | .lock _ => false
  | .unlock _ => false

/-- Lock discipline of a sequence of events: no field is read or written while
the lock is not held. -/
def disciplined (es : List Event) : Bool := es.all fun e => !e.unlocked

/-- Number of times the lock of the queue at `q` is acquired in `es`. -/
def acquisitions (q : Addr) (es : List Event) : Nat := es.count (.lock q)

/-- Number of times the lock of the queue at `q` is released in `es`. -/
def releases (q : Addr) (es : List Event) : Nat := es.count (.unlock q)

/-! ## Basic facts about the embedding -/

@[simp] theorem bind_apply {α β : Type} (m : M α) (f : α → M β) (σ : State) :
    (m >>= f) σ = match m σ with
      | .ok v σ' => f v σ'
      | .fault => .fault
      | .blocked => .blocked := rfl

@[simp] theorem pure_apply {α : Type} (v : α) (σ : State) : (pure v : M α) σ = .ok v σ := rfl

theorem Chain.frame {tasks tasks' : Addr → Option Task} :
    ∀ {p : Ptr} {xs : List (Addr × Ptr)}, Chain tasks p xs →
      (∀ x ∈ xs, tasks' x.1 = tasks x.1) → Chain tasks' p xs := by
  intro p xs
  induction xs generalizing p with
  | nil => intro h _; exact h
  | cons x xs ih =>
    intro h hf
    obtain ⟨hp, n, hn, hc⟩ := h
    refine ⟨hp, n, ?_, ih hc fun y hy => hf y (List.mem_cons_of_mem _ hy)⟩
    rw [hf x (List.mem_cons_self _ _)]; exact hn

theorem Chain.last_node {tasks : Addr → Option Task} :
    ∀ {p : Ptr} {ys : List (Addr × Ptr)} {y : Addr × Ptr}, Chain tasks p (ys ++ [y]) →
      tasks y.1 = some ⟨y.2, none⟩ := by
  intro p ys
  induction ys generalizing p with
  | nil =>
    intro y h
    obtain ⟨_, n, hn, hc⟩ := h
    have : n = none := hc
    rw [hn, this]
  | cons z ys ih =>
    intro y h
    obtain ⟨_, n, _, hc⟩ := h
    exact ih hc

theorem Chain.snoc {tasks tasks' : Addr → Option Task} {a : Addr} {d : Ptr} {y : Addr × Ptr}
    (hy : tasks' y.1 = some ⟨y.2, some a⟩) (ha : tasks' a = some ⟨d, none⟩)
    (hf : ∀ b, b ≠ y.1 → b ≠ a → tasks' b = tasks b) :
    ∀ {p : Ptr} {ys : List (Addr × Ptr)}, Chain tasks p (ys ++ [y]) →
      (List.map Prod.fst (ys ++ [y])).Nodup → (∀ x ∈ ys ++ [y], x.1 ≠ a) →
      Chain tasks' p (ys ++ [y, (a, d)]) := by
  intro p ys
  induction ys generalizing p with
  | nil =>
    intro h _ _
    obtain ⟨hp, n, hn, hc⟩ := h
    exact ⟨hp, some a, hy, rfl, none, ha, rfl⟩
  | cons z ys ih =>
    intro h hnd hne
    obtain ⟨hp, n, hn, hc⟩ := h
    simp only [List.cons_append, List.map_cons, List.nodup_cons] at hnd
    have hz : z.1 ≠ y.1 := by
      intro e
      exact hnd.1 (by simp [e])
    have hza : z.1 ≠ a := hne z (by simp)
    refine ⟨hp, n, ?_, ih hc hnd.2 fun x hx => hne x (List.mem_cons_of_mem _ hx)⟩
    rw [hf _ hz hza]; exact hn

theorem wrap_int_fits {n : Int} (h₁ : -2147483648 ≤ n) (h₂ : n ≤ 2147483647) :
    wrap_int n = n := by
  unfold wrap_int; omega

theorem Rep.toW {σ : State} {q : Addr} {xs : List (Addr × Ptr)} (h : Rep σ q xs) :
    RepW σ q xs := by
  obtain ⟨⟨Q, hQ, hl, hs, hc, ht⟩, hn, hb, hf⟩ := h
  refine ⟨⟨Q, hQ, hl, ?_, hc, ht⟩, hn, hb⟩
  rw [hs, wrap_int_fits] <;> omega

theorem RepW.toRep {σ : State} {q : Addr} {xs : List (Addr × Ptr)} (h : RepW σ q xs)
    (hf : xs.length ≤ 2147483647) : Rep σ q xs := by
  obtain ⟨⟨Q, hQ, hl, hs, hc, ht⟩, hn, hb⟩ := h
  refine ⟨⟨Q, hQ, hl, ?_, hc, ht⟩, hn, hb, hf⟩
  rw [hs, wrap_int_fits] <;> omega

theorem queue_init_ok (σ : State) :
    ∃ σ', queue_init true σ = .ok (some σ.brk) σ' ∧ Rep σ' σ.brk [] ∧
      σ'.tasks = σ.tasks ∧ σ'.out = σ.out ∧ σ'.brk = σ.brk + 1 := by
  simp [queue_init, malloc_queue, mutex_init, set_size, set_tail, set_head, with_queue,
      State.put_queue]
  exact ⟨⟨_, Function.update_same _ _ _, rfl, rfl, rfl, rfl⟩, by simp, by simp, by simp⟩

/-- A push on a queue holding fewer than 2^32 nodes, whatever `size` has wrapped
to: it returns 0 and appends the new node. -/
theorem queue_push_W {σ : State} {q : Addr} {xs : List (Addr × Ptr)} (h : RepW σ q xs)
    (hlt : xs.length < 4294967296) (d : Ptr) :
    ∃ σ', queue_push true d (some q) σ = .ok 0 σ' ∧ RepW σ' q (xs ++ [(σ.brk, d)]) ∧
      σ'.out = σ.out ∧ σ'.brk = σ.brk + 1 := by
  obtain ⟨⟨Q, hQ, hl, hs, hc, ht⟩, hn, hb⟩ := h
  rcases List.eq_nil_or_concat' xs with rfl | ⟨ys, y, rfl⟩
  · have hs : Q.size = 0 := by rw [hs]; rfl
    simp [queue_push, malloc_task, set_next, with_task, mutex_lock, set_object, get_size,
      set_tail, set_head, set_size, mutex_unlock, with_queue, State.put_queue, State.put_task,
      hQ, hl, hs]
    refine ⟨⟨_, Function.update_same _ _ _, rfl, by simp, ?_, by simp⟩, by simp, by simp⟩
    exact ⟨rfl, none, by simp, rfl⟩
  · simp only [List.length_append, List.length_singleton] at hlt
    simp at ht
    have hs0 : Q.size ≠ 0 := by
      rw [hs]; unfold wrap_int
      simp only [List.length_append, List.length_singleton]
      omega
    have hy := Chain.last_node hc
    have hyb : y.1 ≠ σ.brk := Nat.ne_of_lt (hb y (by simp))
    simp [queue_push, malloc_task, set_next, with_task, mutex_lock, set_object, get_size,
      set_tail, set_head, set_size, mutex_unlock, with_queue, State.put_queue, State.put_task,
      hQ, hl, hs0, get_tail, ht, hy, hyb]
    refine ⟨⟨_, Function.update_same _ _ _, rfl, ?_, ?_, by simp⟩, ?_, ?_⟩
    · show wrap_int (Q.size + 1) = _
      rw [hs]; unfold wrap_int
      simp only [List.length_append, List.length_singleton, List.length_cons, List.length_nil]
      omega
    · refine Chain.snoc ?_ ?_ ?_ hc hn fun x hx => Nat.ne_of_lt (hb x hx)
      · simp
      · simp [hyb.symm]
      · intro b hb1 hb2; simp [hb1, hb2]
    · simp only [List.map_append, List.map_cons, List.map_nil] at hn ⊢
      rw [show List.map Prod.fst ys ++ [y.1, σ.brk] = (List.map Prod.fst ys ++ [y.1]) ++ [σ.brk]
        by simp]
      refine List.Nodup.append hn (by simp) ?_
      intro b hb1 hb2
      simp only [List.mem_singleton] at hb2
      subst hb2
      rw [← List.map_singleton, ← List.map_append] at hb1
      obtain ⟨x, hx, hxb⟩ := List.mem_map.1 hb1
      exact absurd hxb (Nat.ne_of_lt (hb x hx))
    · intro x hx
      rw [show ys ++ [y, (σ.brk, d)] = (ys ++ [y]) ++ [(σ.brk, d)] by simp] at hx
      rcases List.mem_append.1 hx with hx | hx
      · exact Nat.lt_succ_of_lt (hb x hx)
      · simp only [List.mem_singleton] at hx
        subst hx
        exact Nat.lt_succ_self _

/-- A push on a well-formed queue returns 0 and appends the new node; `size` may
have wrapped when the queue held `INT_MAX` nodes. -/
theorem queue_push_ret {σ : State} {q : Addr} {xs : List (Addr × Ptr)} (h : Rep σ q xs)
    (d : Ptr) :
    ∃ σ', queue_push true d (some q) σ = .ok 0 σ' ∧ RepW σ' q (xs ++ [(σ.brk, d)]) ∧
      σ'.out = σ.out ∧ σ'.brk = σ.brk + 1 :=
  queue_push_W h.toW (by have := h.fits; omega) d

/-- A push on a well-formed queue holding fewer than `INT_MAX` nodes leaves it
well formed. -/
theorem queue_push_ok {σ : State} {q : Addr} {xs : List (Addr × Ptr)} (h : Rep σ q xs)
    (hlt : xs.length < 2147483647) (d : Ptr) :
    ∃ σ', queue_push true d (some q) σ = .ok 0 σ' ∧ Rep σ' q (xs ++ [(σ.brk, d)]) ∧
      σ'.out = σ.out ∧ σ'.brk = σ.brk + 1 := by
  obtain ⟨σ', h1, h2, h3, h4⟩ := queue_push_ret h d
  exact ⟨σ', h1, h2.toRep (by simp; omega), h3, h4⟩

/-- A pop on a live queue whose lock is free and whose `size` is 0 returns the
empty result and changes no queue and no task. -/
theorem queue_pop_zero {σ : State} {q : Addr} {Q : Queue} (hQ : σ.queues q = some Q)
    (hl : Q.lock = false) (hs : Q.size = 0) :
    ∃ σ', queue_pop (some q) σ = .ok none σ' ∧
      σ'.queues = σ.queues ∧ σ'.tasks = σ.tasks ∧ σ'.brk = σ.brk ∧
      σ'.out = σ.out ++ ["Queue is empty"] := by
  simp [queue_pop, queue_empty, mutex_lock, get_size, puts, mutex_unlock, with_queue,
    State.put_queue, hQ, hl, hs]
  cases Q; simp_all

theorem queue_pop_empty {σ : State} {q : Addr} (h : Rep σ q []) :
    ∃ σ', queue_pop (some q) σ = .ok none σ' ∧ Rep σ' q [] ∧
      σ'.queues = σ.queues ∧ σ'.tasks = σ.tasks ∧ σ'.brk = σ.brk ∧
      σ'.out = σ.out ++ ["Queue is empty"] := by
  obtain ⟨Q, hQ, hl, hs, _⟩ := h.live
  obtain ⟨σ', h1, h2, h3, h4, h5⟩ := queue_pop_zero hQ hl (by simpa using hs)
  obtain ⟨hlive, hn, hb, hf⟩ := h
  exact ⟨σ', h1, ⟨by rw [h2, h3]; exact hlive, hn, by rw [h4]; exact hb, hf⟩, h2, h3, h4, h5⟩

/-- A pop on a non-empty queue holding fewer than 2^32 nodes, whatever `size`
has wrapped to: it returns the first node and keeps the others. -/
theorem queue_pop_W {σ : State} {q : Addr} {x : Addr × Ptr} {xs : List (Addr × Ptr)}
    (h : RepW σ q (x :: xs)) (hlt : (x :: xs).length < 4294967296) :
    ∃ σ', queue_pop (some q) σ = .ok (some x.1) σ' ∧ RepW σ' q xs ∧
      σ'.tasks = σ.tasks ∧ σ'.brk = σ.brk ∧ σ'.out = σ.out := by
  obtain ⟨⟨Q, hQ, hl, hs, hc, ht⟩, hn, hb⟩ := h
  obtain ⟨hh, n, hx, hc'⟩ := hc
  simp only [List.length_cons] at hlt
  have hs0 : Q.size ≠ 0 := by
    rw [hs]; unfold wrap_int
    simp only [List.length_cons]
    omega
  have hs1 : wrap_int (Q.size - 1) = wrap_int xs.length := by
    rw [hs]; unfold wrap_int
    simp only [List.length_cons]
    omega
  have hn' : (List.map Prod.fst xs).Nodup := (List.nodup_cons.1 hn).2
  have hb' : ∀ y ∈ xs, y.1 < σ.brk := fun y hy => hb y (List.mem_cons_of_mem _ hy)
  cases xs with
  | nil =>
    simp at ht
    simp [queue_pop, queue_empty, mutex_lock, get_size, puts, mutex_unlock, with_queue,
      State.put_queue, hQ, hl, hs0, get_head, get_tail, set_head, set_tail, set_size, hh, ht]
    exact ⟨⟨_, Function.update_same _ _ _, rfl, hs1, rfl, rfl⟩, hn', hb'⟩
  | cons z zs =>
    rw [List.getLast?_cons_cons] at ht
    have hne : ¬ (some x.1 = Q.tail) := by
      intro e
      rw [ht] at e
      obtain ⟨l, hl1, hl2⟩ := Option.map_eq_some'.1 e.symm
      have hmem : l ∈ z :: zs := List.mem_of_getLast?_eq_some hl1
      have : x.1 ∈ List.map Prod.fst (z :: zs) := List.mem_map.2 ⟨l, hmem, hl2⟩
      exact (List.nodup_cons.1 hn).1 this
    simp [queue_pop, queue_empty, mutex_lock, get_size, puts, mutex_unlock, with_queue,
      State.put_queue, hQ, hl, hs0, get_head, get_tail, set_head, set_tail, set_size, hne,
      get_next, with_task, hh, hx]
    exact ⟨⟨_, Function.update_same _ _ _, rfl, hs1, hc', ht⟩, hn', hb'⟩

theorem queue_pop_cons {σ : State} {q : Addr} {x : Addr × Ptr} {xs : List (Addr × Ptr)}
    (h : Rep σ q (x :: xs)) :
    ∃ σ', queue_pop (some q) σ = .ok (some x.1) σ' ∧ Rep σ' q xs ∧
      σ'.tasks = σ.tasks ∧ σ'.brk = σ.brk ∧ σ'.out = σ.out := by
  have hf := h.fits
  simp only [List.length_cons] at hf
  obtain ⟨σ', h1, h2, h3, h4, h5⟩ := queue_pop_W h.toW (by simp only [List.length_cons]; omega)
  exact ⟨σ', h1, h2.toRep (by omega), h3, h4, h5⟩

theorem call_push_ok {σ : State} {q : Addr} {xs : List (Addr × Ptr)} (h : Rep σ q xs)
    (hlt : xs.length < 2147483647) (d : Ptr) :
    ∃ σ', call (some q) (.push d) σ = .ok (.pushed 0) σ' ∧ Rep σ' q (xs ++ [(σ.brk, d)]) ∧
      σ'.out = σ.out := by
  obtain ⟨σ', h1, h2, h3, _⟩ := queue_push_ok h hlt d
  exact ⟨σ', by simp [call, h1], h2, h3⟩

theorem call_pop_empty {σ : State} {q : Addr} (h : Rep σ q []) :
    ∃ σ', call (some q) .pop σ = .ok (.popped none) σ' ∧ Rep σ' q [] ∧
      σ'.queues = σ.queues ∧ σ'.tasks = σ.tasks := by
  obtain ⟨σ', h1, h2, h3, h4, _⟩ := queue_pop_empty h
  exact ⟨σ', by simp [call, h1], h2, h3, h4⟩

theorem call_pop_W {σ : State} {q : Addr} {x : Addr × Ptr} {xs : List (Addr × Ptr)}
    (h : RepW σ q (x :: xs)) (hlt : (x :: xs).length < 4294967296) :
    ∃ σ', call (some q) .pop σ = .ok (.popped (some x.2)) σ' ∧ RepW σ' q xs ∧
      σ'.out = σ.out := by
  obtain ⟨σ', h1, h2, h3, _, h5⟩ := queue_pop_W h hlt
  obtain ⟨⟨Q, hQ, hl, hs, ⟨hh, n, hx, hc⟩, ht⟩, hn, hb⟩ := h
  refine ⟨σ', ?_, h2, h5⟩
  simp [call, h1, get_object, with_task, h3, hx]

theorem call_pop_cons {σ : State} {q : Addr} {x : Addr × Ptr} {xs : List (Addr × Ptr)}
    (h : Rep σ q (x :: xs)) :
    ∃ σ', call (some q) .pop σ = .ok (.popped (some x.2)) σ' ∧ Rep σ' q xs ∧
      σ'.out = σ.out := by
  have hf := h.fits
  simp only [List.length_cons] at hf
  obtain ⟨σ', h1, h2, h3⟩ := call_pop_W h.toW (by simp only [List.length_cons]; omega)
  exact ⟨σ', h1, h2.toRep (by omega), h3⟩

/-- Every call on a well-formed queue that keeps the number of nodes within
`INT_MAX` returns, does what the abstract list queue does, and leaves the queue
well formed. -/
theorem call_refines {σ : State} {q : Addr} {xs : List (Addr × Ptr)} (h : Rep σ q xs)
    (op : Op) (rest : List Op) (hw : within_int (op :: rest) xs.length = true) :
    ∃ σ' xs', call (some q) op σ = .ok (spec_call op (xs.map Prod.snd)).1 σ' ∧ Rep σ' q xs' ∧
      xs'.map Prod.snd = (spec_call op (xs.map Prod.snd)).2 ∧
      within_int rest xs'.length = true := by
  cases op with
  | push d =>
    simp only [within_int, Bool.and_eq_true, decide_eq_true_eq] at hw
    obtain ⟨σ', h1, h2, _⟩ := call_push_ok h hw.1 d
    exact ⟨σ', _, h1, h2, by simp [spec_call], by simpa using hw.2⟩
  | pop =>
    cases xs with
    | nil =>
      obtain ⟨σ', h1, h2, _⟩ := call_pop_empty h
      exact ⟨σ', _, h1, h2, by simp [spec_call], by simpa [within_int] using hw⟩
    | cons x xs =>
      obtain ⟨σ', h1, h2, _⟩ := call_pop_cons h
      exact ⟨σ', _, h1, h2, by simp [spec_call], by simpa [within_int] using hw⟩

/-- Every sequence of calls on a well-formed queue that keeps the number of
nodes within `INT_MAX` returns what the abstract list queue returns and leaves
the queue well formed; `rest` is what the client may go on to call. -/
theorem run_refines (q : Addr) (ops rest : List Op) :
    ∀ {σ : State} {xs : List (Addr × Ptr)}, Rep σ q xs →
      within_int (ops ++ rest) xs.length = true →
      ∃ σ' xs', run (some q) ops σ = .ok (spec_run ops (xs.map Prod.snd)).1 σ' ∧ Rep σ' q xs' ∧
        xs'.map Prod.snd = (spec_run ops (xs.map Prod.snd)).2 ∧
        within_int rest xs'.length = true := by
  induction ops with
  | nil => intro σ xs h hw; exact ⟨σ, xs, rfl, h, rfl, hw⟩
  | cons op ops ih =>
    intro σ xs h hw
    obtain ⟨σ₁, xs₁, h1, h2, h3, hw₁⟩ := call_refines h op (ops ++ rest) hw
    obtain ⟨σ₂, xs₂, h4, h5, h6, hw₂⟩ := ih h2 hw₁
    refine ⟨σ₂, xs₂, ?_, h5, ?_, hw₂⟩
    · simp [run, spec_run, h1, h4, h3]
    · simp [spec_run, h6, h3]

theorem two_tasks_rep : Rep two_tasks 0 [(1, some 10), (2, some 20)] := by
  refine ⟨⟨⟨2, some 1, some 2, false⟩, rfl, rfl, rfl, ?_, rfl⟩, by simp, by simp [two_tasks],
    by simp⟩
  exact ⟨rfl, some 2, rfl, rfl, none, rfl, rfl⟩

theorem Chain.node_live {tasks : Addr → Option Task} :
    ∀ {p : Ptr} {xs : List (Addr × Ptr)}, Chain tasks p xs →
      ∀ x ∈ xs, ∃ n, tasks x.1 = some ⟨x.2, n⟩ := by
  intro p xs
  induction xs generalizing p with
  | nil => intro _ x hx; cases hx
  | cons y ys ih =>
    intro h x hx
    obtain ⟨_, n, hn, hc⟩ := h
    rcases List.mem_cons.1 hx with rfl | hx
    · exact ⟨n, hn⟩
    · exact ih hc x hx

theorem get_size_ok {σ : State} {q : Addr} {xs : List (Addr × Ptr)} (h : Rep σ q xs) :
    ∃ σ', get_size (some q) σ = .ok xs.length σ' ∧ Rep σ' q xs ∧ σ'.brk = σ.brk := by
  obtain ⟨⟨Q, hQ, hl, hs, hc, ht⟩, hn, hb, hf⟩ := h
  simp [get_size, with_queue, hQ, hs]
  exact ⟨⟨Q, hQ, hl, hs, hc, ht⟩, hn, hb, hf⟩

theorem queue_empty_ok {σ : State} {q : Addr} {xs : List (Addr × Ptr)} (h : Rep σ q xs) :
    ∃ σ', queue_empty (some q) σ = .ok (if xs = [] then 1 else 0) σ' ∧ Rep σ' q xs ∧
      σ'.brk = σ.brk ∧ σ'.tasks = σ.tasks := by
  obtain ⟨⟨Q, hQ, hl, hs, hc, ht⟩, hn, hb, hf⟩ := h
  cases xs with
  | nil =>
    simp at hs
    simp [queue_empty, get_size, with_queue, hQ, hs]
    exact ⟨⟨Q, hQ, hl, by simp [hs], hc, ht⟩, hn, hb, hf⟩
  | cons x xs =>
    have hs0 : Q.size ≠ 0 := by simp at hs; omega
    simp [queue_empty, get_size, with_queue, hQ, hs0]
    exact ⟨⟨Q, hQ, hl, hs, hc, ht⟩, hn, hb, hf⟩

theorem run_cons (queue : Ptr) (op : Op) (ops : List Op) :
    run queue (op :: ops) = (call queue op >>= fun o => run queue ops >>= fun os => pure (o :: os)) :=
  rfl

/-- Popping a well-formed queue once more than it has nodes returns the nodes'
payloads in order and then the empty result. -/
theorem run_pops_all (q : Addr) :
    ∀ {xs : List (Addr × Ptr)} {σ : State}, Rep σ q xs →
      ∃ σ', run (some q) (List.replicate (xs.length + 1) Op.pop) σ =
          .ok (xs.map (fun x => Obs.popped (some x.2)) ++ [Obs.popped none]) σ' ∧
        Rep σ' q [] := by
  intro xs
  induction xs with
  | nil =>
    intro σ h
    obtain ⟨σ', h1, h2, _⟩ := call_pop_empty h
    exact ⟨σ', by simp [run, h1], h2⟩
  | cons x xs ih =>
    intro σ h
    obtain ⟨σ₁, h1, h2, _⟩ := call_pop_cons h
    obtain ⟨σ₂, h3, h4⟩ := ih h2
    refine ⟨σ₂, ?_, h4⟩
    rw [List.length_cons, List.replicate_succ, run_cons]
    simp only [bind_apply, pure_apply, h1, h3, List.map_cons, List.cons_append]

/-- On an empty well-formed queue every further pop returns the empty result and
leaves the queue structure as it is. -/
theorem run_pops_empty (q : Addr) (k : Nat) :
    ∀ {σ : State}, Rep σ q [] →
      ∃ σ', run (some q) (List.replicate k Op.pop) σ =
          .ok (List.replicate k (Obs.popped none)) σ' ∧
        Rep σ' q [] ∧ σ'.queues = σ.queues := by
  induction k with
  | zero => intro σ h; exact ⟨σ, rfl, h, rfl⟩
  | succ k ih =>
    intro σ h
    obtain ⟨σ₁, h1, h2, h3, _⟩ := call_pop_empty h
    obtain ⟨σ₂, h4, h5, h6⟩ := ih h2
    refine ⟨σ₂, ?_, h5, h6.trans h3⟩
    rw [List.replicate_succ, run_cons]
    simp only [bind_apply, pure_apply, h1, h4, List.replicate_succ]

/-- Popping as many times as there are nodes a queue holding fewer than 2^32
nodes, whatever `size` has wrapped to, returns the nodes' payloads in order and
empties the queue. -/
theorem run_pops_W (q : Addr) :
    ∀ {xs : List (Addr × Ptr)} {σ : State}, RepW σ q xs → xs.length < 4294967296 →
      ∃ σ', run (some q) (List.replicate xs.length Op.pop) σ =
          .ok (xs.map fun x => Obs.popped (some x.2)) σ' ∧ RepW σ' q [] := by
  intro xs
  induction xs with
  | nil => intro σ h _; exact ⟨σ, rfl, h⟩
  | cons x xs ih =>
    intro σ h hlt
    obtain ⟨σ₁, h1, h2, _⟩ := call_pop_W h hlt
    obtain ⟨σ₂, h3, h4⟩ := ih h2 (by simp only [List.length_cons] at hlt; omega)
    refine ⟨σ₂, ?_, h4⟩
    rw [List.length_cons, List.replicate_succ, run_cons]
    simp only [bind_apply, pure_apply, h1, h3, List.map_cons]

/-- Pushing `n` times on a queue that then holds at most 2^32 nodes: every push
returns 0 and the nodes are appended, whatever `size` wraps to. -/
theorem run_pushes_W (q : Addr) (d : Ptr) (n : Nat) :
    ∀ {xs : List (Addr × Ptr)} {σ : State}, RepW σ q xs → xs.length + n ≤ 4294967296 →
      ∃ σ' ys, run (some q) (List.replicate n (Op.push d)) σ =
          .ok (List.replicate n (Obs.pushed 0)) σ' ∧ RepW σ' q (xs ++ ys) ∧ ys.length = n := by
  induction n with
  | zero => intro xs σ h _; exact ⟨σ, [], rfl, by simpa using h, rfl⟩
  | succ n ih =>
    intro xs σ h hle
    obtain ⟨σ₁, h1, h2, _⟩ := queue_push_W h (by omega) d
    have hle' : (xs ++ [(σ.brk, d)]).length + n ≤ 4294967296 := by
      simp only [List.length_append, List.length_singleton]
      omega
    obtain ⟨σ₂, ys, h3, h4, h5⟩ := ih h2 hle'
    refine ⟨σ₂, (σ.brk, d) :: ys, ?_, by simpa using h4, by simp [h5]⟩
    rw [List.replicate_succ, run_cons]
    simp only [bind_apply, pure_apply, call, h1, h3, List.replicate_succ]

/-- On a live queue whose lock is free and whose `size` is 0 every pop returns
the empty result, whatever the queue holds. -/
theorem run_pops_zero (q : Addr) (k : Nat) :
    ∀ {σ : State} {Q : Queue}, σ.queues q = some Q → Q.lock = false → Q.size = 0 →
      ∃ σ', run (some q) (List.replicate k Op.pop) σ =
        .ok (List.replicate k (Obs.popped none)) σ' := by
  induction k with
  | zero => intro σ Q _ _ _; exact ⟨σ, rfl⟩
  | succ k ih =>
    intro σ Q hQ hl hs
    obtain ⟨σ₁, h1, h2, _⟩ := queue_pop_zero hQ hl hs
    obtain ⟨σ₂, h3⟩ := ih (σ := σ₁) (by rw [h2]; exact hQ) hl hs
    refine ⟨σ₂, ?_⟩
    rw [List.replicate_succ, run_cons]
    simp only [bind_apply, pure_apply, call, h1, h3, List.replicate_succ, if_true]

theorem run_append (queue : Ptr) (ops₁ ops₂ : List Op) :
    ∀ {σ σ₁ σ₂ : State} {os₁ os₂ : List Obs}, run queue ops₁ σ = .ok os₁ σ₁ →
      run queue ops₂ σ₁ = .ok os₂ σ₂ → run queue (ops₁ ++ ops₂) σ = .ok (os₁ ++ os₂) σ₂ := by
  induction ops₁ with
  | nil =>
    intro σ σ₁ σ₂ os₁ os₂ h1 h2
    simp only [run, pure_apply, Res.ok.injEq] at h1
    obtain ⟨rfl, rfl⟩ := h1
    simpa using h2
  | cons op ops ih =>
    intro σ σ₁ σ₂ os₁ os₂ h1 h2
    rw [run_cons] at h1
    rw [List.cons_append, run_cons]
    simp only [bind_apply, pure_apply] at h1 ⊢
    cases hc : call queue op σ with
    | ok o σ' =>
      rw [hc] at h1
      simp only at h1
      cases hr : run queue ops σ' with
      | ok os σ'' =>
        rw [hr] at h1
        simp only [Res.ok.injEq] at h1
        obtain ⟨rfl, rfl⟩ := h1
        simp only [ih hr h2, List.cons_append]
      | fault => rw [hr] at h1; cases h1
      | blocked => rw [hr] at h1; cases h1
    | fault => rw [hc] at h1; cases h1
    | blocked => rw [hc] at h1; cases h1

/-- A sequence of pushes followed by pops keeps the number of nodes within
`INT_MAX` when the pushes do. -/
theorem within_int_pops (k : Nat) :
    ∀ n : Nat, within_int (List.replicate k Op.pop) n = true := by
  induction k with
  | zero => intro n; rfl
  | succ k ih => intro n; rw [List.replicate_succ, within_int]; exact ih _

theorem within_int_pushes_pops (ps : List Ptr) (k : Nat) :
    ∀ n : Nat, n + ps.length ≤ 2147483647 →
      within_int (ps.map Op.push ++ List.replicate k Op.pop) n = true := by
  induction ps with
  | nil =>
    intro n _
    simp only [List.map_nil, List.nil_append]
    exact within_int_pops k n
  | cons d ps ih =>
    intro n hn
    simp only [List.length_cons] at hn
    simp only [List.map_cons, List.cons_append, within_int, Bool.and_eq_true,
      decide_eq_true_eq]
    exact ⟨by omega, ih (n + 1) (by omega)⟩

/-! ## Facts about the abstract list queue -/

theorem spec_run_pushes (ps : List Ptr) (ops : List Op) :
    ∀ l : List Ptr, spec_run (ps.map Op.push ++ ops) l =
      (ps.map (fun _ => Obs.pushed 0) ++ (spec_run ops (l ++ ps)).1,
        (spec_run ops (l ++ ps)).2) := by
  induction ps with
  | nil => intro l; simp
  | cons d ps ih => intro l; simp [spec_run, spec_call, ih]

theorem spec_run_pops (l : List Ptr) :
    spec_run (List.replicate l.length Op.pop) l = (l.map fun d => Obs.popped (some d), []) := by
  induction l with
  | nil => rfl
  | cons d l ih => simp [List.replicate_succ, spec_run, spec_call, ih]

theorem spec_run_payloads (ops : List Op) :
    ∀ l : List Ptr, popped_payloads (spec_run ops l).1 ++ (spec_run ops l).2 =
      l ++ pushed_payloads ops := by
  induction ops with
  | nil => intro l; simp [spec_run, popped_payloads, pushed_payloads]
  | cons op ops ih =>
    intro l
    cases op with
    | push d => simp [spec_run, spec_call, popped_payloads, pushed_payloads, ih]
    | pop =>
      cases l with
      | nil => simp [spec_run, spec_call, popped_payloads, pushed_payloads, ih]
      | cons d l => simp [spec_run, spec_call, popped_payloads, pushed_payloads, ih]

theorem spec_run_length (ops : List Op) :
    ∀ l : List Ptr, (spec_run ops l).2.length + pops_returned (spec_run ops l).1 =
      l.length + pushes_completed (spec_run ops l).1 := by
  induction ops with
  | nil => intro l; simp [spec_run, pops_returned, pushes_completed]
  | cons op ops ih =>
    intro l
    cases op with
    | push d =>
      have := ih (l ++ [d])
      simp [spec_run, spec_call, pops_returned, pushes_completed] at this ⊢
      omega
    | pop =>
      cases l with
      | nil =>
        have := ih []
        simp [spec_run, spec_call, pops_returned, pushes_completed] at this ⊢
        omega
      | cons d l =>
        have := ih l
        simp [spec_run, spec_call, pops_returned, pushes_completed] at this ⊢
        omega

theorem spec_run_pushes_pop (d : Ptr) (n : Nat) :
    (spec_run (List.replicate (n + 1) (Op.push d) ++ List.replicate 1 Op.pop) []).1 =
      List.replicate (n + 1) (Obs.pushed 0) ++ [Obs.popped (some d)] := by
  have h := spec_run_pushes (List.replicate (n + 1) d) (List.replicate 1 Op.pop) []
  rw [List.map_replicate, List.map_replicate, List.nil_append] at h
  rw [h]
  simp only [List.replicate_succ, List.replicate_zero, spec_run, spec_call]

theorem pushes_completed_replicate (n : Nat) :
    pushes_completed (List.replicate n (Obs.pushed 0)) = n := by
  induction n with
  | zero => rfl
  | succ n ih => rw [List.replicate_succ, pushes_completed, ih]

theorem pops_returned_replicate (n : Nat) :
    pops_returned (List.replicate n (Obs.pushed 0)) = 0 := by
  induction n with
  | zero => rfl
  | succ n ih =>
    rw [List.replicate_succ, pops_returned, ih]
    intro d h
    cases h

/-! ## The claims -/

/-- C1 (FIFO property) as stated fails for a list of 2^32 payloads: on the queue
returned by `queue_init` the 2^32 pushes all return 0, `size` has wrapped round
to 0, and the 2^32 pops that follow all return the empty result. -/
theorem fifo_overflow_counterexample :
    ∃ σ₁ σ₂, queue_init true State.empty = .ok (some 0) σ₁ ∧
      run (some 0) ((List.replicate 4294967296 (none : Ptr)).map Op.push ++
          List.replicate (List.replicate 4294967296 (none : Ptr)).length Op.pop) σ₁ =
        .ok (List.replicate 4294967296 (Obs.pushed 0) ++
          List.replicate 4294967296 (Obs.popped none)) σ₂ := by
  obtain ⟨σ₁, h1, h2, _⟩ := queue_init_ok State.empty
  obtain ⟨σ₂, ys, h3, h4, h5⟩ := run_pushes_W 0 none 4294967296 h2.toW (Nat.le_of_eq rfl)
  obtain ⟨Q, hQ, hl, hs, _⟩ := h4.live
  have hs0 : Q.size = 0 := by
    rw [hs, List.nil_append, h5]; rfl
  obtain ⟨σ₃, h6⟩ := run_pops_zero 0 4294967296 hQ hl hs0
  refine ⟨σ₁, σ₃, h1, ?_⟩
  rw [List.map_replicate, List.length_replicate]
  exact run_append _ _ _ h3 h6

/-- C1 (FIFO property), amended: from any program state, on the queue returned
by `queue_init`, pushing the payloads `ps` in order, at most `INT_MAX`
(2147483647) of them, and then popping as many times as there are payloads
returns: every push returns 0, and every pop returns a task (not the empty
result) whose `object` fields are, in order, exactly `ps`. -/
theorem fifo_pushes_then_pops (σ : State) (ps : List Ptr) (hN : ps.length ≤ 2147483647) :
    ∃ q σ₁ σ₂, queue_init true σ = .ok (some q) σ₁ ∧
      run (some q) (ps.map Op.push ++ List.replicate ps.length Op.pop) σ₁ =
        .ok (ps.map (fun _ => Obs.pushed 0) ++ ps.map fun d => Obs.popped (some d)) σ₂ := by
  obtain ⟨σ₁, h1, h2, _⟩ := queue_init_ok σ
  have hw : within_int ((ps.map Op.push ++ List.replicate ps.length Op.pop) ++ [])
      ([] : List (Addr × Ptr)).length = true := by
    rw [List.append_nil]
    exact within_int_pushes_pops ps ps.length 0 (by omega)
  obtain ⟨σ₂, xs, h3, _, _⟩ := run_refines σ.brk
    (ps.map Op.push ++ List.replicate ps.length Op.pop) [] h2 hw
  refine ⟨σ.brk, σ₁, σ₂, h1, ?_⟩
  rw [h3, spec_run_pushes]
  simp [spec_run_pops]

/-- C1, at a concrete input: three payloads, one of them `NULL`. -/
theorem fifo_pushes_then_pops_witness :
    ∃ q σ₁ σ₂, queue_init true State.empty = .ok (some q) σ₁ ∧
      run (some q) ([some 10, none, some 30].map Op.push ++ List.replicate 3 Op.pop) σ₁ =
        .ok ([some 10, none, some 30].map (fun _ => Obs.pushed 0) ++
          [some 10, none, some 30].map fun d => Obs.popped (some d)) σ₂ :=
  fifo_pushes_then_pops State.empty [some 10, none, some 30] (by decide)

/-- C2 (strict FIFO, every interleaving) as stated fails for 2^32 pushes followed
by one pop: the pushes all return 0, `size` has wrapped round to 0, and the pop
returns the empty result, where the abstract list queue returns the first
payload. -/
theorem refinement_overflow_counterexample :
    ∃ σ₁ σ₂, queue_init true State.empty = .ok (some 0) σ₁ ∧
      run (some 0) (List.replicate 4294967296 (Op.push none) ++ List.replicate 1 Op.pop) σ₁ =
        .ok (List.replicate 4294967296 (Obs.pushed 0) ++ List.replicate 1 (Obs.popped none))
          σ₂ ∧
      (spec_run (List.replicate 4294967296 (Op.push none) ++ List.replicate 1 Op.pop) []).1 =
        List.replicate 4294967296 (Obs.pushed 0) ++ [Obs.popped (some none)] := by
  obtain ⟨σ₁, h1, h2, _⟩ := queue_init_ok State.empty
  obtain ⟨σ₂, ys, h3, h4, h5⟩ := run_pushes_W 0 none 4294967296 h2.toW (Nat.le_of_eq rfl)
  obtain ⟨Q, hQ, hl, hs, _⟩ := h4.live
  have hs0 : Q.size = 0 := by
    rw [hs, List.nil_append, h5]; rfl
  obtain ⟨σ₃, h6⟩ := run_pops_zero 0 1 hQ hl hs0
  exact ⟨σ₁, σ₃, h1, run_append _ _ _ h3 h6, spec_run_pushes_pop none 4294967295⟩

/-- C2 (strict FIFO, every interleaving), amended: for every finite sequence of
pushes and pops on the queue returned by `queue_init` during which the queue
never holds more than `INT_MAX` (2147483647) nodes, the run returns and every
call returns what the abstract list queue returns (push appends at the back, pop
removes and returns the front, pop on the empty list returns the empty result);
the payloads left in the queue are the abstract list; and the payloads returned
by the pops are, in order, an initial segment of the pushed payloads. -/
theorem fifo_refines_list_queue (σ : State) (ops : List Op)
    (hw : within_int ops 0 = true) :
    ∃ q σ₁ σ₂ xs, queue_init true σ = .ok (some q) σ₁ ∧
      run (some q) ops σ₁ = .ok (spec_run ops []).1 σ₂ ∧
      Rep σ₂ q xs ∧ xs.map Prod.snd = (spec_run ops []).2 ∧
      popped_payloads (spec_run ops []).1 <+: pushed_payloads ops := by
  obtain ⟨σ₁, h1, h2, _⟩ := queue_init_ok σ
  obtain ⟨σ₂, xs, h3, h4, h5, _⟩ := run_refines σ.brk ops [] h2 (by simpa using hw)
  refine ⟨σ.brk, σ₁, σ₂, xs, h1, h3, h4, h5, (spec_run ops []).2, ?_⟩
  simpa using spec_run_payloads ops []

/-- C2, at a concrete input: a push, two pops and a push of `NULL`. -/
theorem fifo_refines_list_queue_witness :
    ∃ q σ₁ σ₂ xs, queue_init true State.empty = .ok (some q) σ₁ ∧
      run (some q) [Op.push (some 10), Op.pop, Op.pop, Op.push none] σ₁ =
        .ok (spec_run [Op.push (some 10), Op.pop, Op.pop, Op.push none] []).1 σ₂ ∧
      Rep σ₂ q xs ∧
      xs.map Prod.snd = (spec_run [Op.push (some 10), Op.pop, Op.pop, Op.push none] []).2 ∧
      popped_payloads (spec_run [Op.push (some 10), Op.pop, Op.pop, Op.push none] []).1 <+:
        pushed_payloads [Op.push (some 10), Op.pop, Op.pop, Op.push none] :=
  fifo_refines_list_queue State.empty [Op.push (some 10), Op.pop, Op.pop, Op.push none]
    (by decide)

/-- C3 (size invariant) as stated fails after 2^31 pushes: they all complete
(return 0) and no pop was made, yet `size` reads -2147483648, which is negative
and is not the number of pushes. -/
theorem size_overflow_counterexample :
    ∃ σ₁ σ₂, queue_init true State.empty = .ok (some 0) σ₁ ∧
      run (some 0) (List.replicate 2147483648 (Op.push none)) σ₁ =
        .ok (List.replicate 2147483648 (Obs.pushed 0)) σ₂ ∧
      pushes_completed (List.replicate 2147483648 (Obs.pushed 0)) = 2147483648 ∧
      pops_returned (List.replicate 2147483648 (Obs.pushed 0)) = 0 ∧
      size_at σ₂ 0 = some (-2147483648) := by
  obtain ⟨σ₁, h1, h2, _⟩ := queue_init_ok State.empty
  obtain ⟨σ₂, ys, h3, h4, h5⟩ := run_pushes_W 0 none 2147483648 h2.toW (by decide)
  obtain ⟨Q, hQ, hl, hs, _⟩ := h4.live
  have hs0 : Q.size = -2147483648 := by
    rw [hs, List.nil_append, h5]; rfl
  refine ⟨σ₁, σ₂, h1, h3, pushes_completed_replicate _, pops_returned_replicate _, ?_⟩
  simp only [size_at, hQ, Option.map_some', hs0]

/-- C3 (size invariant), amended: after any finite sequence `ops` of pushes and
pops on the queue returned by `queue_init` during which the queue never holds
more than `INT_MAX` (2147483647) nodes, `size` equals the number of pushes
completed minus the number of pops that returned a task and is not negative; and
one more call `op` within that limit changes `size` by exactly +1 when it is a
push that succeeds, by exactly -1 when it is a pop that returns a task, and not
at all when it is a pop that returns the empty result. -/
theorem size_counts_pushes_minus_pops (σ : State) (ops : List Op) (op : Op)
    (hw : within_int (ops ++ [op]) 0 = true) :
    ∃ q σ₁ σ₂ σ₃ obs o n, queue_init true σ = .ok (some q) σ₁ ∧
      run (some q) ops σ₁ = .ok obs σ₂ ∧ call (some q) op σ₂ = .ok o σ₃ ∧
      size_at σ₂ q = some n ∧
      n = (pushes_completed obs : Int) - (pops_returned obs : Int) ∧ 0 ≤ n ∧
      size_at σ₃ q = some (match o with
        | .pushed 0 => n + 1
        | .popped (some _) => n - 1
        | _ => n) := by
  obtain ⟨σ₁, h1, h2, _⟩ := queue_init_ok σ
  obtain ⟨σ₂, xs, h3, h4, h5, hw₂⟩ := run_refines σ.brk ops [op] h2 (by simpa using hw)
  obtain ⟨σ₃, xs', h6, h7, h8, _⟩ := call_refines h4 op [] hw₂
  obtain ⟨Q, hQ, _, hs, _, _⟩ := h4.live
  obtain ⟨Q', hQ', _, hs', _, _⟩ := h7.live
  have hlen := spec_run_length ops []
  simp only [List.map_nil] at h3 h5
  rw [← h5, List.length_map] at hlen
  have hlen' : xs'.length = (spec_call op (xs.map Prod.snd)).2.length := by
    rw [← h8, List.length_map]
  refine ⟨σ.brk, σ₁, σ₂, σ₃, _, _, Q.size, h1, h3, h6, by simp [size_at, hQ], ?_, ?_, ?_⟩
  · rw [hs]; simp at hlen; omega
  · rw [hs]; exact Int.natCast_nonneg _
  · simp only [size_at, hQ', Option.map_some', hs', hs, hlen']
    cases op with
    | push d => simp [spec_call]
    | pop =>
      cases hxs : xs.map Prod.snd with
      | nil =>
        have : xs.length = 0 := by
          rw [← List.length_map xs Prod.snd, hxs, List.length_nil]
        simp [spec_call, this]
      | cons d l =>
        have : xs.length = l.length + 1 := by
          rw [← List.length_map xs Prod.snd, hxs, List.length_cons]
        simp [spec_call, this]

/-- C3, at a concrete input: two pushes and a pop, then one more pop. -/
theorem size_counts_pushes_minus_pops_witness :
    ∃ q σ₁ σ₂ σ₃ obs o n, queue_init true State.empty = .ok (some q) σ₁ ∧
      run (some q) [Op.push (some 10), Op.push none, Op.pop] σ₁ = .ok obs σ₂ ∧
      call (some q) Op.pop σ₂ = .ok o σ₃ ∧
      size_at σ₂ q = some n ∧
      n = (pushes_completed obs : Int) - (pops_returned obs : Int) ∧ 0 ≤ n ∧
      size_at σ₃ q = some (match o with
        | .pushed 0 => n + 1
        | .popped (some _) => n - 1
        | _ => n) :=
  size_counts_pushes_minus_pops State.empty [Op.push (some 10), Op.push none, Op.pop] Op.pop
    (by decide)

/-- C4 (emptiness invariant) as stated fails after 2^32 pushes: they all return
0 and `size` has wrapped round to 0 while `head` is not `NULL`. -/
theorem emptiness_overflow_counterexample :
    ∃ σ₁ σ₂ Q, queue_init true State.empty = .ok (some 0) σ₁ ∧
      run (some 0) (List.replicate 4294967296 (Op.push none)) σ₁ =
        .ok (List.replicate 4294967296 (Obs.pushed 0)) σ₂ ∧
      σ₂.queues 0 = some Q ∧ Q.size = 0 ∧ Q.head ≠ none := by
  obtain ⟨σ₁, h1, h2, _⟩ := queue_init_ok State.empty
  obtain ⟨σ₂, ys, h3, h4, h5⟩ := run_pushes_W 0 none 4294967296 h2.toW (Nat.le_of_eq rfl)
  obtain ⟨Q, hQ, hl, hs, hc, _⟩ := h4.live
  have hs0 : Q.size = 0 := by
    rw [hs, List.nil_append, h5]; rfl
  refine ⟨σ₁, σ₂, Q, h1, h3, hQ, hs0, ?_⟩
  rw [List.nil_append] at hc
  cases ys with
  | nil => cases h5
  | cons y ys => rw [hc.1]; exact Option.some_ne_none _

/-- C4 (emptiness invariant), amended: in every state reached from `queue_init`
by a finite sequence of pushes and pops during which the queue never holds more
than `INT_MAX` (2147483647) nodes, `size == 0` iff `head` is `NULL` iff `tail`
is `NULL`. -/
theorem empty_iff_head_null_iff_tail_null (σ : State) (ops : List Op)
    (hw : within_int ops 0 = true) :
    ∃ q σ₁ σ₂ obs Q, queue_init true σ = .ok (some q) σ₁ ∧
      run (some q) ops σ₁ = .ok obs σ₂ ∧ σ₂.queues q = some Q ∧
      (Q.size = 0 ↔ Q.head = none) ∧ (Q.head = none ↔ Q.tail = none) := by
  obtain ⟨σ₁, h1, h2, _⟩ := queue_init_ok σ
  obtain ⟨σ₂, xs, h3, h4, _⟩ := run_refines σ.brk ops [] h2 (by simpa using hw)
  obtain ⟨Q, hQ, _, hs, hc, ht⟩ := h4.live
  refine ⟨σ.brk, σ₁, σ₂, _, Q, h1, h3, hQ, ?_, ?_⟩
  · cases xs with
    | nil =>
      have : Q.head = none := hc
      simp [hs, this]
    | cons x xs =>
      have : Q.head = some x.1 := hc.1
      simp [hs, this]
      omega
  · cases xs with
    | nil =>
      have : Q.head = none := hc
      simp [ht, this]
    | cons x xs =>
      have : Q.head = some x.1 := hc.1
      simp [ht, this]

/-- C4, at a concrete input: a push, two pops and a push of `NULL`. -/
theorem empty_iff_head_null_iff_tail_null_witness :
    ∃ q σ₁ σ₂ obs Q, queue_init true State.empty = .ok (some q) σ₁ ∧
      run (some q) [Op.push (some 10), Op.pop, Op.pop, Op.push none] σ₁ = .ok obs σ₂ ∧
      σ₂.queues q = some Q ∧
      (Q.size = 0 ↔ Q.head = none) ∧ (Q.head = none ↔ Q.tail = none) :=
  empty_iff_head_null_iff_tail_null State.empty
    [Op.push (some 10), Op.pop, Op.pop, Op.push none] (by decide)

/-- C5 (destroy drains the whole queue), what the code does instead: on a
well-formed queue holding at least two task nodes `queue_exit` returns after
popping and releasing the first node only and releasing the queue; every other
node is still allocated, with no queue left to reach it. -/
theorem queue_exit_releases_first_node_only {σ : State} {q : Addr} {x y : Addr × Ptr}
    {xs : List (Addr × Ptr)} (h : Rep σ q (x :: y :: xs)) :
    ∃ σ', queue_exit (some q) σ = .ok () σ' ∧ σ'.queues q = none ∧ σ'.tasks x.1 = none ∧
      ∀ z ∈ y :: xs, ∃ n, σ'.tasks z.1 = some ⟨z.2, n⟩ := by
  obtain ⟨σ₁, h1, h2, _, h3⟩ := queue_empty_ok h
  obtain ⟨σ₂, h4, h5, h6, _⟩ := queue_pop_cons h2
  obtain ⟨⟨Q, hQ, _, _, hc, _⟩, hn, _⟩ := h
  obtain ⟨Q₂, hQ₂, _, _, hc₂, _⟩ := h5.live
  obtain ⟨n, hx⟩ := hc.node_live x (List.mem_cons_self _ _)
  have hx₂ : σ₂.tasks x.1 = some ⟨x.2, n⟩ := by rw [h6, h3, hx]
  refine ⟨{ σ₂ with tasks := Function.update σ₂.tasks x.1 none,
                     queues := Function.update σ₂.queues q none }, ?_, ?_, ?_, ?_⟩
  · simp [queue_exit, h1, h4, free_task, hx₂, free_queue, hQ₂]
  · simp
  · simp
  · intro z hz
    obtain ⟨m, hm⟩ := hc₂.node_live z hz
    have hzx : z.1 ≠ x.1 := by
      intro e
      have : x.1 ∈ List.map Prod.fst (y :: xs) := List.mem_map.2 ⟨z, hz, e⟩
      exact (List.nodup_cons.1 hn).1 this
    exact ⟨m, by simp [hzx, hm]⟩

/-- C5, at a concrete input: `queue_exit` on the queue of `two_tasks`. -/
theorem queue_exit_releases_first_node_only_witness :
    ∃ σ', queue_exit (some 0) two_tasks = .ok () σ' ∧ σ'.queues 0 = none ∧
      σ'.tasks 1 = none ∧ ∀ z ∈ [((2 : Addr), (some 20 : Ptr))], ∃ n, σ'.tasks z.1 = some ⟨z.2, n⟩ :=
  queue_exit_releases_first_node_only two_tasks_rep

/-- C6 (push on allocation failure), what the code does instead: when `malloc`
returns `NULL` and the queue pointer is not `NULL`, `queue_push` stores through
the `NULL` task pointer (`task->next = NULL`): undefined behaviour, no value is
returned. -/
theorem queue_push_alloc_failure_faults (σ : State) (data : Ptr) (q : Addr) :
    queue_push false data (some q) σ = .fault := by
  simp [queue_push, malloc_task, set_next, with_task]

/-- C7 (empty-after-drain): on a well-formed queue holding the nodes `xs`,
popping until the empty result comes takes `xs.length` pops that return a task
and one that returns the empty result; after that `queue_empty` returns 1, and
any number `k` of further pops all return the empty result and leave the queue
structure (`size`, `head`, `tail`) as it was. -/
theorem empty_after_drain {σ : State} {q : Addr} {xs : List (Addr × Ptr)} (h : Rep σ q xs)
    (k : Nat) :
    ∃ σ₁ σ₂ σ₃ Q, run (some q) (List.replicate (xs.length + 1) Op.pop) σ =
        .ok (xs.map (fun x => Obs.popped (some x.2)) ++ [Obs.popped none]) σ₁ ∧
      σ₁.queues q = some Q ∧ Q.size = 0 ∧ Q.head = none ∧ Q.tail = none ∧
      queue_empty (some q) σ₁ = .ok 1 σ₂ ∧
      run (some q) (List.replicate k Op.pop) σ₁ = .ok (List.replicate k (Obs.popped none)) σ₃ ∧
      σ₃.queues q = some Q := by
  obtain ⟨σ₁, h1, h2⟩ := run_pops_all q h
  obtain ⟨σ₂, h3, _⟩ := queue_empty_ok h2
  obtain ⟨σ₃, h4, _, h5⟩ := run_pops_empty q k h2
  obtain ⟨Q, hQ, _, hs, hc, ht⟩ := h2.live
  exact ⟨σ₁, σ₂, σ₃, Q, h1, hQ, by simpa using hs, hc, by simpa using ht, by simpa using h3, h4,
    by rw [h5, hQ]⟩

/-- C7, at a concrete input: draining the queue of `two_tasks`, then three more
pops. -/
theorem empty_after_drain_witness :
    ∃ σ₁ σ₂ σ₃ Q, run (some 0) (List.replicate 3 Op.pop) two_tasks =
        .ok [Obs.popped (some (some 10)), Obs.popped (some (some 20)), Obs.popped none] σ₁ ∧
      σ₁.queues 0 = some Q ∧ Q.size = 0 ∧ Q.head = none ∧ Q.tail = none ∧
      queue_empty (some 0) σ₁ = .ok 1 σ₂ ∧
      run (some 0) (List.replicate 3 Op.pop) σ₁ = .ok (List.replicate 3 (Obs.popped none)) σ₃ ∧
      σ₃.queues 0 = some Q :=
  empty_after_drain two_tasks_rep 3

theorem pop_and_size_empty {σ : State} {q : Addr} (h : Rep σ q []) :
    ∃ σ', pop_and_size (some q) σ = .ok (.popped none, 0) σ' ∧ Rep σ' q [] := by
  obtain ⟨σ₁, h1, h2, _⟩ := call_pop_empty h
  obtain ⟨σ₂, h3, h4, _⟩ := get_size_ok h2
  exact ⟨σ₂, by simp [pop_and_size, h1, h3], h4⟩

theorem pop_and_size_cons {σ : State} {q : Addr} {x : Addr × Ptr} {xs : List (Addr × Ptr)}
    (h : Rep σ q (x :: xs)) :
    ∃ σ', pop_and_size (some q) σ = .ok (.popped (some x.2), xs.length) σ' ∧ Rep σ' q xs := by
  obtain ⟨σ₁, h1, h2, _⟩ := call_pop_cons h
  obtain ⟨σ₂, h3, h4, _⟩ := get_size_ok h2
  exact ⟨σ₂, by simp [pop_and_size, h1, h3], h4⟩

/-- C8 (example scenario) as stated fails: after pushing three payloads, the
four pops do not leave `size` reading 3, 2, 1, 0. -/
theorem scenario_sizes_counterexample :
    (scenario (some 97) (some 98) (some 99) State.empty).val?.map Prod.snd ≠
      some [(Obs.popped (some (some 97)), 3), (Obs.popped (some (some 98)), 2),
        (Obs.popped (some (some 99)), 1), (Obs.popped none, 0)] := by
  decide

/-- C8 (example scenario), amended: from any program state, creating a queue,
pushing `a`, `b`, `c` in that order and popping four times returns tasks
carrying `a`, then `b`, then `c`, then the empty result; `size` reads 3 before
the first pop and 2, 1, 0, 0 after the successive pops. -/
theorem scenario_result (σ : State) (a b c : Ptr) :
    (scenario a b c σ).val? =
      some (3, [(Obs.popped (some a), 2), (Obs.popped (some b), 1),
        (Obs.popped (some c), 0), (Obs.popped none, 0)]) := by
  obtain ⟨σ₁, h1, r1, _⟩ := queue_init_ok σ
  obtain ⟨σ₂, h2, r2, _⟩ := queue_push_ok r1 (by simp) a
  obtain ⟨σ₃, h3, r3, _⟩ := queue_push_ok r2 (by simp) b
  obtain ⟨σ₄, h4, r4, _⟩ := queue_push_ok r3 (by simp) c
  obtain ⟨σ₅, h5, r5, _⟩ := get_size_ok r4
  obtain ⟨σ₆, h6, r6⟩ := pop_and_size_cons r5
  obtain ⟨σ₇, h7, r7⟩ := pop_and_size_cons r6
  obtain ⟨σ₈, h8, r8⟩ := pop_and_size_cons r7
  obtain ⟨σ₉, h9, r9⟩ := pop_and_size_empty r8
  simp [scenario, h1, h2, h3, h4, h5, h6, h7, h8, h9, Res.val?]

/-- C9 (isEmpty result): on a live queue `queue_empty` returns 1 when `size` is
0 and 0 otherwise, and on `NULL` it returns -1; in both cases no queue and no
task is changed. -/
theorem queue_empty_result (σ : State) (q : Addr) (Q : Queue) (h : σ.queues q = some Q) :
    (∃ σ', queue_empty (some q) σ = .ok (if Q.size = 0 then 1 else 0) σ' ∧
      σ'.queues = σ.queues ∧ σ'.tasks = σ.tasks) ∧
    queue_empty none σ = .ok (-1) σ := by
  refine ⟨?_, rfl⟩
  by_cases hs : Q.size = 0 <;> simp [queue_empty, get_size, with_queue, h, hs]

/-- C9, at a concrete input: the queue of `two_tasks`, whose `size` is 2. -/
theorem queue_empty_result_witness :
    (∃ σ', queue_empty (some 0) two_tasks = .ok 0 σ' ∧
      σ'.queues = two_tasks.queues ∧ σ'.tasks = two_tasks.tasks) ∧
    queue_empty none two_tasks = .ok (-1) two_tasks :=
  queue_empty_result two_tasks 0 ⟨2, some 1, some 2, false⟩ rfl

/-- C10 (InvalidArgument at entry), what the code does: given `NULL`,
`queue_empty` returns -1 and `queue_push` returns -1, neither touching a queue
field or a lock; but `queue_pop` locks `&queue->lock` before any check, an
access through `NULL`: undefined behaviour, no empty result is returned. -/
theorem queue_pop_null_faults (σ : State) (avail : Bool) (data : Ptr) :
    queue_pop none σ = .fault ∧
    queue_empty none σ = .ok (-1) σ ∧
    ∃ σ', queue_push avail data none σ = .ok (-1) σ' ∧ σ'.log = σ.log ∧
      σ'.queues = σ.queues := by
  refine ⟨by simp [queue_pop, mutex_lock, with_queue], rfl, ?_⟩
  cases avail <;> simp [queue_push, malloc_task]

/-- C11 (payload stored verbatim): on a well-formed queue holding the nodes
`xs`, with storage available, `queue_push` of any payload pointer `p` (`NULL`
included) returns 0 and the node now at `tail` has `object == p`; popping then
returns the payloads that were queued before, in order, followed by a task whose
`object` is `p` (when the queue was empty, the very next pop returns it). -/
theorem payload_stored_verbatim {σ : State} {q : Addr} {xs : List (Addr × Ptr)}
    (h : Rep σ q xs) (p : Ptr) :
    ∃ σ' σ'' Q' a n, queue_push true p (some q) σ = .ok 0 σ' ∧
      σ'.queues q = some Q' ∧ Q'.tail = some a ∧ σ'.tasks a = some ⟨p, n⟩ ∧
      run (some q) (List.replicate (xs.length + 1) Op.pop) σ' =
        .ok (xs.map (fun x => Obs.popped (some x.2)) ++ [Obs.popped (some p)]) σ'' := by
  obtain ⟨σ', h1, h2, _⟩ := queue_push_ret h p
  obtain ⟨Q', hQ', _, _, hc, ht⟩ := h2.live
  have hf := h.fits
  obtain ⟨σ'', h3, _⟩ := run_pops_W q h2 (by simp; omega)
  refine ⟨σ', σ'', Q', σ.brk, none, h1, hQ', by simpa using ht, hc.last_node, ?_⟩
  simpa using h3

/-- C11, at a concrete input: pushing the `NULL` payload on the queue of
`two_tasks`. -/
theorem payload_stored_verbatim_witness :
    ∃ σ' σ'' Q' a n, queue_push true none (some 0) two_tasks = .ok 0 σ' ∧
      σ'.queues 0 = some Q' ∧ Q'.tail = some a ∧ σ'.tasks a = some ⟨none, n⟩ ∧
      run (some 0) (List.replicate 3 Op.pop) σ' =
        .ok [Obs.popped (some (some 10)), Obs.popped (some (some 20)),
          Obs.popped (some none)] σ'' :=
  payload_stored_verbatim two_tasks_rep none

/-- C13 (create returns an empty queue): when storage is obtained `queue_init`
returns a queue with `size` 0, `head` and `tail` `NULL` and the lock not held,
on which `queue_empty` returns 1 and `queue_pop` returns the empty result; when
storage cannot be obtained it returns `NULL` and changes nothing. -/
theorem queue_init_creates_empty_queue (σ : State) :
    (∃ q σ₁ σ₂ σ₃, queue_init true σ = .ok (some q) σ₁ ∧
      σ₁.queues q = some ⟨0, none, none, false⟩ ∧
      queue_empty (some q) σ₁ = .ok 1 σ₂ ∧ queue_pop (some q) σ₁ = .ok none σ₃) ∧
    queue_init false σ = .ok none σ := by
  obtain ⟨σ₁, h1, h2, _⟩ := queue_init_ok σ
  obtain ⟨σ₂, h3, _⟩ := queue_empty_ok h2
  obtain ⟨σ₃, h4, _⟩ := queue_pop_empty h2
  obtain ⟨Q, hQ, hl, hs, hc, ht⟩ := h2.live
  have hh : Q.head = none := hc
  have hQ' : Q = ⟨0, none, none, false⟩ := by
    cases Q; simp_all
  refine ⟨⟨σ.brk, σ₁, σ₂, σ₃, h1, by rw [hQ, hQ'], by simpa using h3, h4⟩, ?_⟩
  simp [queue_init, malloc_queue]

/-- In a well-formed queue with at least two nodes `head` and `tail` are
different nodes. -/
theorem head_ne_tail {σ : State} {q : Addr} {x z : Addr × Ptr} {zs : List (Addr × Ptr)}
    (h : Rep σ q (x :: z :: zs)) {Q : Queue} (hQ : σ.queues q = some Q) :
    Q.head = some x.1 ∧ Q.tail = (z :: zs).getLast?.map Prod.fst ∧ Q.head ≠ Q.tail := by
  obtain ⟨⟨Q₀, hQ₀, _, _, hc, ht⟩, hn, _⟩ := h
  obtain rfl : Q₀ = Q := Option.some.inj (hQ₀.symm.trans hQ)
  rw [List.getLast?_cons_cons] at ht
  refine ⟨hc.1, ht, ?_⟩
  intro e
  rw [hc.1, ht] at e
  obtain ⟨l, hl1, hl2⟩ := Option.map_eq_some'.1 e.symm
  have hmem : l ∈ z :: zs := List.mem_of_getLast?_eq_some hl1
  have : x.1 ∈ List.map Prod.fst (z :: zs) := List.mem_map.2 ⟨l, hmem, hl2⟩
  exact (List.nodup_cons.1 hn).1 this

/-- C15 (pop detaches the head): on a well-formed queue whose first node is `x`,
`queue_pop` returns the node that was `head`; when `head` and `tail` were the
same node (`size` 1) both become `NULL`, otherwise `head` becomes the `next` of
the old head and `tail` is unchanged; `size` decreases by one, no task node is
modified, and the queue holds the remaining nodes `xs` in the same order. -/
theorem pop_detaches_head {σ : State} {q : Addr} {x : Addr × Ptr} {xs : List (Addr × Ptr)}
    (h : Rep σ q (x :: xs)) :
    ∃ σ' Q Q' t, σ.queues q = some Q ∧ Q.head = some x.1 ∧ σ.tasks x.1 = some t ∧
      queue_pop (some q) σ = .ok Q.head σ' ∧ σ'.queues q = some Q' ∧
      Q'.size = Q.size - 1 ∧
      (if Q.head = Q.tail then Q.size = 1 ∧ Q'.head = none ∧ Q'.tail = none
        else Q'.head = t.next ∧ Q'.tail = Q.tail) ∧
      σ'.tasks = σ.tasks ∧ Rep σ' q xs := by
  obtain ⟨σ', h1, h2, h3, _⟩ := queue_pop_cons h
  obtain ⟨Q, hQ, _, hs, ⟨hh, n, hx, hc⟩, ht⟩ := h.live
  obtain ⟨Q', hQ', _, hs', hc', ht'⟩ := h2.live
  refine ⟨σ', Q, Q', ⟨x.2, n⟩, hQ, hh, hx, by rw [hh]; exact h1, hQ', ?_, ?_, h3, h2⟩
  · rw [hs, hs']; simp
  · cases xs with
    | nil =>
      have e : Q.head = Q.tail := by rw [hh, ht]; rfl
      rw [if_pos e]
      exact ⟨by simpa using hs, hc', by simpa using ht'⟩
    | cons z zs =>
      obtain ⟨_, ht₂, hne⟩ := head_ne_tail h hQ
      rw [if_neg hne]
      exact ⟨by rw [hc'.1]; exact hc.1.symm, by rw [ht', ht₂]⟩

/-- C15, at a concrete input: the queue of `two_tasks`. -/
theorem pop_detaches_head_witness :
    ∃ σ' Q Q' t, two_tasks.queues 0 = some Q ∧ Q.head = some 1 ∧ two_tasks.tasks 1 = some t ∧
      queue_pop (some 0) two_tasks = .ok Q.head σ' ∧ σ'.queues 0 = some Q' ∧
      Q'.size = Q.size - 1 ∧
      (if Q.head = Q.tail then Q.size = 1 ∧ Q'.head = none ∧ Q'.tail = none
        else Q'.head = t.next ∧ Q'.tail = Q.tail) ∧
      σ'.tasks = two_tasks.tasks ∧ Rep σ' 0 [(2, some 20)] :=
  pop_detaches_head two_tasks_rep

/-- C16 (structural invariant) as stated fails after 2^31 pushes: they all
return 0 and the chain from `head` holds 2147483648 nodes, while `size` reads
-2147483648. -/
theorem chain_overflow_counterexample :
    ∃ σ₁ σ₂ Q xs, queue_init true State.empty = .ok (some 0) σ₁ ∧
      run (some 0) (List.replicate 2147483648 (Op.push none)) σ₁ =
        .ok (List.replicate 2147483648 (Obs.pushed 0)) σ₂ ∧
      σ₂.queues 0 = some Q ∧ Chain σ₂.tasks Q.head xs ∧ xs.length = 2147483648 ∧
      Q.size = -2147483648 := by
  obtain ⟨σ₁, h1, h2, _⟩ := queue_init_ok State.empty
  obtain ⟨σ₂, ys, h3, h4, h5⟩ := run_pushes_W 0 none 2147483648 h2.toW (by decide)
  obtain ⟨Q, hQ, hl, hs, hc, _⟩ := h4.live
  have hs0 : Q.size = -2147483648 := by
    rw [hs, List.nil_append, h5]; rfl
  rw [List.nil_append] at hc
  exact ⟨σ₁, σ₂, Q, ys, h1, h3, hQ, hc, h5, hs0⟩

/-- C16 (structural invariant), amended: in every state reached from
`queue_init` by a finite sequence of pushes and pops during which the queue
never holds more than `INT_MAX` (2147483647) nodes, following `next` from `head`
visits a chain of nodes `xs` that ends in `NULL`, `size` is the number of those
nodes, and when `size >= 1` `tail` is the last node of the chain and
`tail->next` is `NULL`. -/
theorem size_counts_chain_and_tail_is_last (σ : State) (ops : List Op)
    (hw : within_int ops 0 = true) :
    ∃ q σ₁ σ₂ obs Q xs, queue_init true σ = .ok (some q) σ₁ ∧
      run (some q) ops σ₁ = .ok obs σ₂ ∧ σ₂.queues q = some Q ∧
      Chain σ₂.tasks Q.head xs ∧ Q.size = xs.length ∧
      (1 ≤ Q.size → ∃ a t, Q.tail = some a ∧ xs.getLast?.map Prod.fst = some a ∧
        σ₂.tasks a = some t ∧ t.next = none) := by
  obtain ⟨σ₁, h1, h2, _⟩ := queue_init_ok σ
  obtain ⟨σ₂, xs, h3, h4, _⟩ := run_refines σ.brk ops [] h2 (by simpa using hw)
  obtain ⟨Q, hQ, _, hs, hc, ht⟩ := h4.live
  refine ⟨σ.brk, σ₁, σ₂, _, Q, xs, h1, h3, hQ, hc, hs, ?_⟩
  intro h1'
  rcases List.eq_nil_or_concat' xs with rfl | ⟨ys, y, rfl⟩
  · simp [hs] at h1'
  · exact ⟨y.1, ⟨y.2, none⟩, by simpa using ht, by simp, hc.last_node, rfl⟩

/-- C16, at a concrete input: two pushes, a pop and a push of `NULL`. -/
theorem size_counts_chain_and_tail_is_last_witness :
    ∃ q σ₁ σ₂ obs Q xs, queue_init true State.empty = .ok (some q) σ₁ ∧
      run (some q) [Op.push (some 10), Op.push (some 20), Op.pop, Op.push none] σ₁ =
        .ok obs σ₂ ∧
      σ₂.queues q = some Q ∧
      Chain σ₂.tasks Q.head xs ∧ Q.size = xs.length ∧
      (1 ≤ Q.size → ∃ a t, Q.tail = some a ∧ xs.getLast?.map Prod.fst = some a ∧
        σ₂.tasks a = some t ∧ t.next = none) :=
  size_counts_chain_and_tail_is_last State.empty
    [Op.push (some 10), Op.push (some 20), Op.pop, Op.push none] (by decide)

/-- C20 (popped node keeps its link): on a well-formed queue whose first node is
`x`, the task returned by `queue_pop` is `x` and after the call its `next` field
still equals the queue's new `head`: the second node when the queue had at least
two nodes, `NULL` when it had one. -/
theorem popped_node_keeps_link {σ : State} {q : Addr} {x : Addr × Ptr}
    {xs : List (Addr × Ptr)} (h : Rep σ q (x :: xs)) :
    ∃ σ' Q' t, queue_pop (some q) σ = .ok (some x.1) σ' ∧ σ'.tasks x.1 = some t ∧
      σ'.queues q = some Q' ∧ t.next = Q'.head ∧ Q'.head = xs.head?.map Prod.fst := by
  obtain ⟨σ', h1, h2, h3, _⟩ := queue_pop_cons h
  obtain ⟨Q, hQ, _, hs, ⟨hh, n, hx, hc⟩, ht⟩ := h.live
  obtain ⟨Q', hQ', _, hs', hc', ht'⟩ := h2.live
  refine ⟨σ', Q', ⟨x.2, n⟩, h1, by rw [h3, hx], hQ', ?_, ?_⟩
  · cases xs with
    | nil =>
      have e₁ : n = none := hc
      have e₂ : Q'.head = none := hc'
      rw [e₂]; exact e₁
    | cons z zs => 
      show n = Q'.head
      rw [hc.1, hc'.1]
  · cases xs with
    | nil => exact hc'
    | cons z zs => exact hc'.1

/-- C20, at a concrete input: the queue of `two_tasks`, where the popped node 1
still points to node 2, the new head. -/
theorem popped_node_keeps_link_witness :
    ∃ σ' Q' t, queue_pop (some 0) two_tasks = .ok (some 1) σ' ∧ σ'.tasks 1 = some t ∧
      σ'.queues 0 = some Q' ∧ t.next = Q'.head ∧
      Q'.head = [((2 : Addr), (some 20 : Ptr))].head?.map Prod.fst :=
  popped_node_keeps_link two_tasks_rep

/-! ## Output and lock events of the calls -/

theorem queue_empty_eq {σ : State} {q : Addr} {Q : Queue} (hQ : σ.queues q = some Q) :
    queue_empty (some q) σ =
      .ok (if Q.size = 0 then 1 else 0) { σ with log := σ.log ++ [.read q .size Q.lock] } := by
  by_cases hs : Q.size = 0 <;> simp [queue_empty, get_size, with_queue, hQ, hs]

/-- Well-formedness does not depend on the output and the log. -/
theorem Rep.congr {σ σ' : State} {q : Addr} {xs : List (Addr × Ptr)} (h : Rep σ q xs)
    (hq : σ'.queues = σ.queues) (ht : σ'.tasks = σ.tasks) (hb : σ'.brk = σ.brk) :
    Rep σ' q xs := by
  obtain ⟨hl, hn, hbel, hf⟩ := h
  exact ⟨by rw [hq, ht]; exact hl, hn, by rw [hb]; exact hbel, hf⟩

/-- Every return of `queue_pop` on a live queue whose lock is free: what it
logged holds one acquisition and one release of the lock, every field access in
between was made with the lock held, and the lock is free again. -/
theorem queue_pop_events {σ : State} {q : Addr} {Q : Queue} (hQ : σ.queues q = some Q)
    (hl : Q.lock = false) {r : Ptr} {σ' : State} (hr : queue_pop (some q) σ = .ok r σ') :
    ∃ es Q', σ'.log = σ.log ++ es ∧ acquisitions q es = 1 ∧ releases q es = 1 ∧
      disciplined es = true ∧ σ'.queues q = some Q' ∧ Q'.lock = false := by
  by_cases hs : Q.size = 0
  · simp [queue_pop, queue_empty, mutex_lock, get_size, puts, mutex_unlock, with_queue,
      State.put_queue, hQ, hl, hs] at hr
    obtain ⟨-, rfl⟩ := hr
    exact ⟨_, _, rfl, by simp [acquisitions], by simp [releases], rfl,
      Function.update_same _ _ _, rfl⟩
  · by_cases ht : Q.head = Q.tail
    · simp [queue_pop, queue_empty, mutex_lock, get_size, puts, mutex_unlock, with_queue,
        State.put_queue, hQ, hl, hs, get_head, get_tail, set_head, set_tail, set_size, ht] at hr
      obtain ⟨-, rfl⟩ := hr
      exact ⟨_, _, rfl, by simp [acquisitions], by simp [releases], rfl,
        Function.update_same _ _ _, rfl⟩
    · cases hh : Q.head with
      | none =>
        rw [hh] at ht
        simp [queue_pop, queue_empty, mutex_lock, get_size, puts, mutex_unlock, with_queue,
          State.put_queue, hQ, hl, hs, get_head, get_tail, set_head, set_tail, set_size, ht,
          get_next, with_task, hh] at hr
      | some a =>
        rw [hh] at ht
        cases hn : σ.tasks a with
        | none =>
          simp [queue_pop, queue_empty, mutex_lock, get_size, puts, mutex_unlock, with_queue,
            State.put_queue, hQ, hl, hs, get_head, get_tail, set_head, set_tail, set_size, ht,
            get_next, with_task, hh, hn] at hr
        | some t =>
          simp [queue_pop, queue_empty, mutex_lock, get_size, puts, mutex_unlock, with_queue,
            State.put_queue, hQ, hl, hs, get_head, get_tail, set_head, set_tail, set_size, ht,
            get_next, with_task, hh, hn] at hr
          obtain ⟨-, rfl⟩ := hr
          exact ⟨_, _, rfl, by simp [acquisitions], by simp [releases], rfl,
            Function.update_same _ _ _, rfl⟩

/-- Every return of `queue_push` on a live queue whose lock is free: what it
logged holds one acquisition and one release of the lock, every field access in
between was made with the lock held, and the lock is free again. -/
theorem queue_push_events {σ : State} {q : Addr} {Q : Queue} (hQ : σ.queues q = some Q)
    (hl : Q.lock = false) {avail : Bool} {d : Ptr} {r : Int} {σ' : State}
    (hr : queue_push avail d (some q) σ = .ok r σ') :
    ∃ es Q', σ'.log = σ.log ++ es ∧ acquisitions q es = 1 ∧ releases q es = 1 ∧
      disciplined es = true ∧ σ'.queues q = some Q' ∧ Q'.lock = false := by
  cases avail with
  | false => simp [queue_push, malloc_task, set_next, with_task] at hr
  | true =>
    by_cases hs : Q.size = 0
    · simp [queue_push, malloc_task, set_next, with_task, mutex_lock, set_object, get_size,
        set_tail, set_head, set_size, mutex_unlock, with_queue, State.put_queue, State.put_task,
        hQ, hl, hs] at hr
      obtain ⟨-, rfl⟩ := hr
      exact ⟨_, _, rfl, by simp [acquisitions], by simp [releases], rfl,
        Function.update_same _ _ _, rfl⟩
    · cases ht : Q.tail with
      | none =>
        simp [queue_push, malloc_task, set_next, with_task, mutex_lock, set_object, get_size,
          set_tail, set_head, set_size, mutex_unlock, with_queue, State.put_queue,
          State.put_task, hQ, hl, hs, get_tail, ht] at hr
      | some a =>
        cases hn : Function.update σ.tasks σ.brk (some ⟨d, none⟩) a with
        | none =>
          simp [queue_push, malloc_task, set_next, with_task, mutex_lock, set_object, get_size,
            set_tail, set_head, set_size, mutex_unlock, with_queue, State.put_queue,
            State.put_task, hQ, hl, hs, get_tail, ht, hn] at hr
        | some t =>
          simp [queue_push, malloc_task, set_next, with_task, mutex_lock, set_object, get_size,
            set_tail, set_head, set_size, mutex_unlock, with_queue, State.put_queue,
            State.put_task, hQ, hl, hs, get_tail, ht, hn] at hr
          obtain ⟨-, rfl⟩ := hr
          exact ⟨_, _, rfl, by simp [acquisitions], by simp [releases], rfl,
            Function.update_same _ _ _, rfl⟩

/-- On a well-formed queue `queue_exit` returns, with the queue released and
nothing printed; the first thing it does is read `size` without the lock. -/
theorem queue_exit_ok {σ : State} {q : Addr} {xs : List (Addr × Ptr)} (h : Rep σ q xs) :
    ∃ σ' es, queue_exit (some q) σ = .ok () σ' ∧ σ'.queues q = none ∧ σ'.out = σ.out ∧
      σ'.log = σ.log ++ Event.read q .size false :: es := by
  obtain ⟨Q, hQ, hl, hs, hc, _⟩ := h.live
  cases xs with
  | nil =>
    have hs0 : Q.size = 0 := by simpa using hs
    refine ⟨{ σ with log := σ.log ++ [Event.read q .size Q.lock],
                      queues := Function.update σ.queues q none }, [], ?_, ?_, ?_, ?_⟩
    · simp [queue_exit, queue_empty_eq hQ, hs0, free_queue, hQ]
    · simp
    · simp
    · simp [hl]
  | cons x xs =>
    have hs0 : Q.size ≠ 0 := by simp at hs; omega
    have h₁ : Rep { σ with log := σ.log ++ [Event.read q .size Q.lock] } q (x :: xs) :=
      h.congr rfl rfl rfl
    obtain ⟨σ₂, h2, h3, h4, _, h5⟩ := queue_pop_cons h₁
    obtain ⟨es, _, h6, _⟩ := queue_pop_events
      (σ := { σ with log := σ.log ++ [Event.read q .size Q.lock] }) hQ hl h2
    obtain ⟨Q₂, hQ₂, _⟩ := h3.live
    obtain ⟨n, hx⟩ := hc.node_live x (List.mem_cons_self _ _)
    have hx₂ : σ₂.tasks x.1 = some ⟨x.2, n⟩ := by rw [h4]; exact hx
    refine ⟨{ σ₂ with tasks := Function.update σ₂.tasks x.1 none,
                       queues := Function.update σ₂.queues q none }, es, ?_, ?_, ?_, ?_⟩
    · simp [queue_exit, queue_empty_eq hQ, hs0, h2, free_task, hx₂, free_queue, hQ₂]
    · simp
    · simpa using h5
    · simp [h6, hl]

/-- The loop of `worker` on a well-formed queue holding the nodes `xs`: with
more fuel than nodes it returns after popping every node, in order, and then
getting the empty result once; the queue is left empty. -/
theorem worker_ok (text : Ptr → String) (q : Addr) :
    ∀ {xs : List (Addr × Ptr)} {σ : State} (fuel : Nat), Rep σ q xs → xs.length < fuel →
      ∃ σ', worker text (some q) fuel σ = .ok (some (xs.map (fun x => some x.1) ++ [none])) σ' ∧
        Rep σ' q [] := by
  intro xs
  induction xs with
  | nil =>
    intro σ fuel h hf
    obtain ⟨k, rfl⟩ : ∃ k, fuel = k + 1 := ⟨fuel - 1, by simp at hf; omega⟩
    obtain ⟨σ', h1, h2, _⟩ := queue_pop_empty h
    exact ⟨σ', by simp [worker, h1], h2⟩
  | cons x xs ih =>
    intro σ fuel h hf
    obtain ⟨k, rfl⟩ : ∃ k, fuel = k + 1 := ⟨fuel - 1, by simp at hf; omega⟩
    obtain ⟨σ₁, h1, h2, h3, _⟩ := queue_pop_cons h
    obtain ⟨n, hx⟩ := h.live.choose_spec.2.2.2.1.node_live x (List.mem_cons_self _ _)
    obtain ⟨Q₁, hQ₁, _, hs₁, _⟩ := h2.live
    have h₂ : Rep { σ₁ with
        tasks := σ.tasks,
        log := σ₁.log ++ [Event.read q .size Q₁.lock],
        out := σ₁.out ++ ["Popped '" ++ text x.2 ++ "' off of the queue.",
          "Size: " ++ toString Q₁.size] } q xs := h2.congr rfl h3.symm rfl
    obtain ⟨σ₃, h4, h5⟩ := ih k h₂ (by simp at hf; omega)
    refine ⟨σ₃, ?_, h5⟩
    simp [worker, h1, get_object, with_task, h3, hx, get_size, with_queue, hQ₁, puts]
    rw [h4]
    rfl

/-- C12 (the core never logs) as stated fails: on the empty queue returned by
`queue_init`, `queue_pop` returns the empty result and standard output, empty
before the call, holds the line "Queue is empty" after it. -/
theorem queue_pop_prints_counterexample :
    (queue_init true State.empty).state?.map State.out = some [] ∧
    ((queue_init true >>= queue_pop) State.empty).val? = some none ∧
    ((queue_init true >>= queue_pop) State.empty).state?.map State.out =
      some ["Queue is empty"] := by
  decide

/-- C12 (the core never logs), amended: on a well-formed queue, `queue_init`,
`queue_empty`, `queue_push` and `queue_exit` return without writing to standard
output, and so does a `queue_pop` that returns a task; a `queue_pop` that finds
the queue empty returns the empty result after writing the one line
"Queue is empty". -/
theorem only_empty_pop_prints {σ : State} {q : Addr} {xs : List (Addr × Ptr)}
    (h : Rep σ q xs) (avail : Bool) (data : Ptr) :
    (∃ r σ', queue_init avail σ = .ok r σ' ∧ σ'.out = σ.out) ∧
    (∃ r σ', queue_empty (some q) σ = .ok r σ' ∧ σ'.out = σ.out) ∧
    (∃ σ', queue_push true data (some q) σ = .ok 0 σ' ∧ σ'.out = σ.out) ∧
    (∃ r σ', queue_pop (some q) σ = .ok r σ' ∧ (r = none ↔ xs = []) ∧
      σ'.out = σ.out ++ if xs = [] then ["Queue is empty"] else []) ∧
    (∃ σ', queue_exit (some q) σ = .ok () σ' ∧ σ'.out = σ.out) := by
  obtain ⟨Q, hQ, _⟩ := h.live
  refine ⟨?_, ⟨_, _, queue_empty_eq hQ, rfl⟩, ?_, ?_, ?_⟩
  · cases avail with
    | false => exact ⟨none, σ, by simp [queue_init, malloc_queue], rfl⟩
    | true =>
      obtain ⟨σ', h1, _, _, h2, _⟩ := queue_init_ok σ
      exact ⟨_, σ', h1, h2⟩
  · obtain ⟨σ', h1, _, h2, _⟩ := queue_push_ret h data
    exact ⟨σ', h1, h2⟩
  · cases xs with
    | nil =>
      obtain ⟨σ', h1, _, _, _, _, h2⟩ := queue_pop_empty h
      exact ⟨none, σ', h1, by simp, by simpa using h2⟩
    | cons x xs =>
      obtain ⟨σ', h1, _, _, _, h2⟩ := queue_pop_cons h
      exact ⟨some x.1, σ', h1, by simp, by simpa using h2⟩
  · obtain ⟨σ', _, h1, _, h2, _⟩ := queue_exit_ok h
    exact ⟨σ', h1, h2⟩

/-- C12, at a concrete input: the calls on the queue of `two_tasks`, which is
not empty. -/
theorem only_empty_pop_prints_witness :
    (∃ r σ', queue_init true two_tasks = .ok r σ' ∧ σ'.out = two_tasks.out) ∧
    (∃ r σ', queue_empty (some 0) two_tasks = .ok r σ' ∧ σ'.out = two_tasks.out) ∧
    (∃ σ', queue_push true none (some 0) two_tasks = .ok 0 σ' ∧ σ'.out = two_tasks.out) ∧
    (∃ r σ', queue_pop (some 0) two_tasks = .ok r σ' ∧
      (r = none ↔ [((1 : Addr), (some 10 : Ptr)), (2, some 20)] = []) ∧
      σ'.out = two_tasks.out ++
        if [((1 : Addr), (some 10 : Ptr)), (2, some 20)] = [] then ["Queue is empty"] else []) ∧
    (∃ σ', queue_exit (some 0) two_tasks = .ok () σ' ∧ σ'.out = two_tasks.out) :=
  only_empty_pop_prints two_tasks_rep true none

/-- C17 (lock discipline) as stated fails: `queue_empty` called on its own on
the queue of `two_tasks`, whose lock is free, reads `size` without the lock. -/
theorem queue_empty_unlocked_read_counterexample :
    (queue_empty (some 0) two_tasks).state?.map State.log =
      some [Event.read 0 Field.size false] ∧
    (queue_empty (some 0) two_tasks).state?.map (fun σ => disciplined σ.log) = some false := by
  decide

/-- C17 (lock discipline), amended: on a live queue whose lock is free, every
call of `queue_push` and of `queue_pop` that returns has read and written
`size`, `head` and `tail` only while holding the lock (the emptiness check made
inside `queue_pop` included), and on a well-formed queue these calls return;
`queue_empty` called on its own reads `size` without the lock, `queue_exit`
starts with that unlocked read, and `queue_init` writes the three fields of the
new queue without the lock. -/
theorem push_pop_access_under_lock {σ : State} {q : Addr} {Q : Queue}
    (hQ : σ.queues q = some Q) (hl : Q.lock = false) :
    (∀ avail data r σ', queue_push avail data (some q) σ = .ok r σ' →
      ∃ es, σ'.log = σ.log ++ es ∧ disciplined es = true) ∧
    (∀ r σ', queue_pop (some q) σ = .ok r σ' →
      ∃ es, σ'.log = σ.log ++ es ∧ disciplined es = true) ∧
    (∀ xs data, Rep σ q xs →
      (∃ σ', queue_push true data (some q) σ = .ok 0 σ') ∧
      (∃ r σ', queue_pop (some q) σ = .ok r σ') ∧
      ∃ σ' es, queue_exit (some q) σ = .ok () σ' ∧
        σ'.log = σ.log ++ Event.read q .size false :: es) ∧
    (∃ r σ', queue_empty (some q) σ = .ok r σ' ∧
      σ'.log = σ.log ++ [Event.read q .size false]) ∧
    (∃ σ', queue_init true σ = .ok (some σ.brk) σ' ∧
      σ'.log = σ.log ++ [Event.write σ.brk .size false, Event.write σ.brk .tail false,
        Event.write σ.brk .head false]) := by
  refine ⟨?_, ?_, ?_, ⟨_, _, queue_empty_eq hQ, by simp [hl]⟩, ?_⟩
  · intro avail data r σ' hr
    obtain ⟨es, _, h1, _, _, h2, _⟩ := queue_push_events hQ hl hr
    exact ⟨es, h1, h2⟩
  · intro r σ' hr
    obtain ⟨es, _, h1, _, _, h2, _⟩ := queue_pop_events hQ hl hr
    exact ⟨es, h1, h2⟩
  · intro xs data h
    obtain ⟨σ₁, h1, _⟩ := queue_push_ret h data
    obtain ⟨σ₃, es, h3, _, _, h4⟩ := queue_exit_ok h
    refine ⟨⟨σ₁, h1⟩, ?_, σ₃, es, h3, h4⟩
    cases xs with
    | nil =>
      obtain ⟨σ₂, h2, _⟩ := queue_pop_empty h
      exact ⟨_, σ₂, h2⟩
    | cons x xs =>
      obtain ⟨σ₂, h2, _⟩ := queue_pop_cons h
      exact ⟨_, σ₂, h2⟩
  · simp [queue_init, malloc_queue, mutex_init, set_size, set_tail, set_head, with_queue,
      State.put_queue]

/-- C17, at a concrete input: the queue of `two_tasks`. -/
theorem push_pop_access_under_lock_witness :
    (∀ avail data r σ', queue_push avail data (some 0) two_tasks = .ok r σ' →
      ∃ es, σ'.log = two_tasks.log ++ es ∧ disciplined es = true) ∧
    (∀ r σ', queue_pop (some 0) two_tasks = .ok r σ' →
      ∃ es, σ'.log = two_tasks.log ++ es ∧ disciplined es = true) ∧
    (∀ xs data, Rep two_tasks 0 xs →
      (∃ σ', queue_push true data (some 0) two_tasks = .ok 0 σ') ∧
      (∃ r σ', queue_pop (some 0) two_tasks = .ok r σ') ∧
      ∃ σ' es, queue_exit (some 0) two_tasks = .ok () σ' ∧
        σ'.log = two_tasks.log ++ Event.read 0 .size false :: es) ∧
    (∃ r σ', queue_empty (some 0) two_tasks = .ok r σ' ∧
      σ'.log = two_tasks.log ++ [Event.read 0 .size false]) ∧
    (∃ σ', queue_init true two_tasks = .ok (some two_tasks.brk) σ' ∧
      σ'.log = two_tasks.log ++ [Event.write two_tasks.brk .size false,
        Event.write two_tasks.brk .tail false, Event.write two_tasks.brk .head false]) :=
  push_pop_access_under_lock (σ := two_tasks) (q := 0) (Q := ⟨2, some 1, some 2, false⟩) rfl rfl

/-- C18 (lock balance): on a live queue whose lock is not held at entry, every
call of `queue_push` and of `queue_pop` that returns has acquired the lock
exactly once, released it exactly once, and leaves it not held, whatever path it
took; on a well-formed queue both calls return, and `queue_pop` on the empty
queue returns the empty result along that same discipline. -/
theorem lock_acquired_once_and_released {σ : State} {q : Addr} {Q : Queue}
    (hQ : σ.queues q = some Q) (hl : Q.lock = false) :
    (∀ avail data r σ', queue_push avail data (some q) σ = .ok r σ' →
      ∃ es Q', σ'.log = σ.log ++ es ∧ acquisitions q es = 1 ∧ releases q es = 1 ∧
        σ'.queues q = some Q' ∧ Q'.lock = false) ∧
    (∀ r σ', queue_pop (some q) σ = .ok r σ' →
      ∃ es Q', σ'.log = σ.log ++ es ∧ acquisitions q es = 1 ∧ releases q es = 1 ∧
        σ'.queues q = some Q' ∧ Q'.lock = false) ∧
    (∀ xs data, Rep σ q xs →
      (∃ σ', queue_push true data (some q) σ = .ok 0 σ') ∧
      (∃ r σ', queue_pop (some q) σ = .ok r σ' ∧ (xs = [] → r = none))) := by
  refine ⟨?_, ?_, ?_⟩
  · intro avail data r σ' hr
    obtain ⟨es, Q', h1, h2, h3, _, h4, h5⟩ := queue_push_events hQ hl hr
    exact ⟨es, Q', h1, h2, h3, h4, h5⟩
  · intro r σ' hr
    obtain ⟨es, Q', h1, h2, h3, _, h4, h5⟩ := queue_pop_events hQ hl hr
    exact ⟨es, Q', h1, h2, h3, h4, h5⟩
  · intro xs data h
    obtain ⟨σ₁, h1, _⟩ := queue_push_ret h data
    refine ⟨⟨σ₁, h1⟩, ?_⟩
    cases xs with
    | nil =>
      obtain ⟨σ₂, h2, _⟩ := queue_pop_empty h
      exact ⟨_, σ₂, h2, fun _ => rfl⟩
    | cons x xs =>
      obtain ⟨σ₂, h2, _⟩ := queue_pop_cons h
      exact ⟨_, σ₂, h2, fun e => by cases e⟩

/-- C18, at a concrete input: the queue of `two_tasks`. -/
theorem lock_acquired_once_and_released_witness :
    (∀ avail data r σ', queue_push avail data (some 0) two_tasks = .ok r σ' →
      ∃ es Q', σ'.log = two_tasks.log ++ es ∧ acquisitions 0 es = 1 ∧ releases 0 es = 1 ∧
        σ'.queues 0 = some Q' ∧ Q'.lock = false) ∧
    (∀ r σ', queue_pop (some 0) two_tasks = .ok r σ' →
      ∃ es Q', σ'.log = two_tasks.log ++ es ∧ acquisitions 0 es = 1 ∧ releases 0 es = 1 ∧
        σ'.queues 0 = some Q' ∧ Q'.lock = false) ∧
    (∀ xs data, Rep two_tasks 0 xs →
      (∃ σ', queue_push true data (some 0) two_tasks = .ok 0 σ') ∧
      (∃ r σ', queue_pop (some 0) two_tasks = .ok r σ' ∧ (xs = [] → r = none))) :=
  lock_acquired_once_and_released (σ := two_tasks) (q := 0) (Q := ⟨2, some 1, some 2, false⟩)
    rfl rfl

/-- C19 (drain loop terminates): on a well-formed queue holding `n` nodes, with
no push taking place, the loop of `worker` given more than `n` iterations of
fuel returns after exactly `n` pops that returned the nodes, in order, followed
by one pop that returned the empty result, and leaves the queue with `size`
0. -/
theorem worker_drains_queue {σ : State} {q : Addr} {xs : List (Addr × Ptr)} (h : Rep σ q xs)
    (text : Ptr → String) (fuel : Nat) (hf : xs.length < fuel) :
    ∃ σ', worker text (some q) fuel σ = .ok (some (xs.map (fun x => some x.1) ++ [none])) σ' ∧
      size_at σ' q = some 0 := by
  obtain ⟨σ', h1, h2⟩ := worker_ok text q fuel h hf
  obtain ⟨Q, hQ, _, hs, _⟩ := h2.live
  exact ⟨σ', h1, by simp [size_at, hQ, hs]⟩

/-- C19, at a concrete input: the loop on the queue of `two_tasks`, with fuel
for five iterations. -/
theorem worker_drains_queue_witness :
    ∃ σ', worker (fun _ => "job") (some 0) 5 two_tasks = .ok (some [some 1, some 2, none]) σ' ∧
      size_at σ' 0 = some 0 :=
  worker_drains_queue two_tasks_rep (fun _ => "job") 5 (by decide)

end CQueue
